import Mathlib

/-!
Verification development for the transaction coordinator (`txn.c`) and the
v11 write-ahead-log format (`xlog_v11.c`) of the repository.

The transaction side is embedded as a state-passing model: the per-task
state holds the engine's index content, the task-local current-transaction
slot and the tuple reference counts; observable actions (log append,
trigger runs, port delivery, reference bumps, scratch-region release) are
recorded in an event trace.
-/

namespace Spec2Proof

/-! ## Tuples, spaces, rows (transaction side data model) -/

/-- A tuple: a keyed immutable record (`k` is its primary key).  The source
treats tuples as opaque reference-counted blobs; the model keys them so the
engine's index can be expressed. -/
structure Tuple where
  k : Nat
  v : Nat
deriving DecidableEq

/-- A space: trigger list (opaque trigger ids), run-triggers kill-switch and
the `temporary` flag, per `struct space` as consumed by `txn.c`. -/
structure Space where
  on_replace : List Nat
  run_triggers : Bool
  temporary : Bool
deriving DecidableEq

/-- `space_is_temporary` lifted to the nullable space slot of a `txn`. -/
def tempOf : Option Space → Bool
  | some sp => sp.temporary
  | none => false

/-- A redo log row (`struct iproto_header` as used by `txn.c`): operation
type and body segment count. -/
structure IprotoRow where
  typ : Nat
  bodycnt : Nat
deriving DecidableEq

/-- `enum dup_replace_mode`. -/
inductive DupMode where
  | DUP_INSERT
  | DUP_REPLACE
  | DUP_REPLACE_OR_INSERT
deriving DecidableEq

/-- `recovery_state->wal_mode`. -/
inductive WalMode where
  | NONE
  | WRITE
  | FSYNC
deriving DecidableEq

/-- An incoming mutation (`struct request`): operation type, optional
pre-built header row, and the segment count its `request_encode` returns. -/
structure Request where
  typ : Nat
  header : Option IprotoRow
  encodeCnt : Nat

/-- Per-task transaction object (`struct txn`). -/
structure Txn where
  old_tuple : Option Tuple
  new_tuple : Option Tuple
  space : Option Space
  row : Option IprotoRow
  on_commit : List Nat
  on_rollback : List Nat
deriving DecidableEq

/-- Observable actions of the transaction coordinator, recorded in order. -/
inductive TxnEv where
  | walWrite (row : Option IprotoRow)
  | warnTooLong
  | onCommitTrig (id : Nat)
  | onRollbackTrig (id : Nat)
  | onReplaceRun
  | portAddTuple (t : Tuple)
  | engReplace (old_tuple new_tuple : Option Tuple) (mode : DupMode)
  | refBump (t : Tuple) (d : Int)
  | engineTxnFinish
  | regionRelease
  | clearTxn
deriving DecidableEq

/-- Failure outcomes of the coordinator.  The source's `assert`s are embedded
as failures: `txnAlreadyActive` is the `assert(! in_txn())` of `txn_begin`
(named as the spec names the observable error), `assertFailed` covers the
other assertions. -/
inductive TxnErr where
  | txnAlreadyActive
  | walIo
  | assertFailed
deriving DecidableEq

/-- Per-task system state: the engine's primary index (key to stored tuple),
the task-local `in_txn()` slot, and the tuple reference counts. -/
structure Sys where
  engine : Nat → Option Tuple
  cur : Option Txn
  refs : Tuple → Int

/-- `tuple_ref(t, d)` on the reference-count map. -/
def bumpRef (refs : Tuple → Int) (t : Tuple) (d : Int) : Tuple → Int :=
  fun u => if u = t then refs u + d else refs u

/-- Modelled from the spec: the storage engine backing spaces is out of
scope of the repository (spec section 1) and is consumed only through
`replace(space, old, new, mode) -> displaced_tuple` (spec section 6), an
atomic index mutation on the space's primary key.  Inserting a non-null
`new` stores it under its key and returns the tuple previously stored
there (the displaced tuple, which may differ from `old`); a pure delete
(`new` null) removes and returns the tuple under `old`'s key.  Mode checks
are engine-internal (`EngineReplace` errors restore state before raising,
spec section 7) and are not modelled; the mode is recorded by callers. -/
def space_replace (eng : Nat → Option Tuple) (old_tuple new_tuple : Option Tuple)
    (mode : DupMode) : (Nat → Option Tuple) × Option Tuple :=
  match new_tuple with
  | some nt => (fun q => if q = nt.k then some nt else eng q, eng nt.k)
  | none =>
    match old_tuple with
    | some ot => (fun q => if q = ot.k then none else eng q, eng ot.k)
    | none => (eng, none)

/-- The engine invariant that the tuple stored under key `q` has key `q`. -/
def Keyed (eng : Nat → Option Tuple) : Prop :=
  ∀ q t, eng q = some t → t.k = q

/-- The fresh transaction `txn_begin` allocates: zero-filled
(`region_alloc0`) with empty trigger lists (`rlist_create`). -/
def freshTxn : Txn :=
  { old_tuple := none, new_tuple := none, space := none, row := none,
    on_commit := [], on_rollback := [] }

/-- `txn_begin()`: fails if a transaction is live on the task, otherwise
allocates a fresh transaction with empty trigger lists from the task's
scratch region and installs it in `in_txn()`. -/
def txn_begin (s : Sys) : Except TxnErr Sys :=
  match s.cur with
  | some _ => .error .txnAlreadyActive
  | none => .ok { s with cur := some freshTxn }

/-- `txn_replace(txn, space, old_tuple, new_tuple, mode)`.  The source
receives the transaction by pointer; the model keeps it in the task slot
where `txn_begin` installed it, so the operation acts on `s.cur` (callers
always pass the live transaction). -/
def txn_replace (sp : Space) (old_tuple new_tuple : Option Tuple) (mode : DupMode)
    (s : Sys) : Except TxnErr (Sys × List TxnEv) :=
  match s.cur with
  | none => .error .assertFailed
  | some txn =>
    if old_tuple.isNone && new_tuple.isNone then .error .assertFailed
    else
      let res := space_replace s.engine old_tuple new_tuple mode
      let txn1 := { txn with old_tuple := res.2 }
      let step : Txn × (Tuple → Int) × List TxnEv :=
        match new_tuple with
        | some nt => ({ txn1 with new_tuple := some nt }, bumpRef s.refs nt 1,
            [TxnEv.refBump nt 1])
        | none => (txn1, s.refs, [])
      let txn3 := { step.1 with space := some sp }
      let evs2 := if !sp.on_replace.isEmpty && sp.run_triggers then
          [TxnEv.onReplaceRun] else []
      .ok ({ engine := res.1, cur := some txn3, refs := step.2.1 },
           TxnEv.engReplace old_tuple new_tuple mode :: step.2.2 ++ evs2)

/-- `txn_add_redo(txn, request)`: store the caller-supplied header; when the
log is active and no header was supplied, synthesize a row from the request
in the task's scratch region. -/
def txn_add_redo (req : Request) (wmode : WalMode) (s : Sys) : Sys :=
  match s.cur with
  | none => s
  | some txn =>
    let txn1 := { txn with row := req.header }
    if wmode = WalMode.NONE ∨ req.header.isSome then { s with cur := some txn1 }
    else { s with cur := some { txn1 with
        row := some { typ := req.typ, bodycnt := req.encodeCnt } } }

/-- The tuple `port_send_tuple` delivers: `new_tuple` if present, else
`old_tuple`. -/
def visible_tuple (txn : Txn) : Option Tuple :=
  match txn.new_tuple with
  | some t => some t
  | none => txn.old_tuple

/-- `port_send_tuple(port, txn)` as the event it emits on the port. -/
def port_send_tuple (txn : Txn) : List TxnEv :=
  match visible_tuple txn with
  | some t => [TxnEv.portAddTuple t]
  | none => []

/-- `txn_finish(txn)`: release the reference on `old_tuple`, run the
engine's transaction finalizer if a space was recorded, release the scratch
region (`fiber_gc`) and clear `in_txn()`. -/
def txn_finish (s : Sys) : Sys × List TxnEv :=
  match s.cur with
  | none => (s, [])
  | some txn =>
    let evs1 := match txn.old_tuple with
      | some ot => [TxnEv.refBump ot (-1)]
      | none => []
    let evs2 := match txn.space with
      | some _ => [TxnEv.engineTxnFinish]
      | none => []
    let refs1 := match txn.old_tuple with
      | some ot => bumpRef s.refs ot (-1)
      | none => s.refs
    ({ s with refs := refs1, cur := none },
     evs1 ++ evs2 ++ [TxnEv.regionRelease, TxnEv.clearTxn])

/-- Outcome of `txn_commit`: error (if `tnt_raise`d), resulting state (the
input state when an error is raised before any mutation) and event trace. -/
structure CommitOut where
  err : Option TxnErr
  sys : Sys
  evs : List TxnEv

/-- `txn_commit(txn, port)`.  `wmode` is `recovery_state->wal_mode`,
`walRes` the result of the `wal_write` call, and `tooLong` stands for
`stop - start > too_long_threshold` of the timed appender call. -/
def txn_commit (s : Sys) (wmode : WalMode) (walRes : Int) (tooLong : Bool) :
    CommitOut :=
  match s.cur with
  | none => ⟨some .assertFailed, s, []⟩
  | some txn =>
    if (txn.old_tuple.isSome || txn.new_tuple.isSome) && !tempOf txn.space then
      -- txn_commit() must be done after txn_add_redo()
      if wmode = WalMode.NONE ∨ txn.row.isSome then
        let walEvs := TxnEv.walWrite txn.row ::
          (if tooLong && txn.row.isSome then [TxnEv.warnTooLong] else [])
        if walRes ≠ 0 then ⟨some .walIo, s, walEvs⟩
        else
          let fin := txn_finish s
          ⟨none, fin.1, walEvs ++ txn.on_commit.map TxnEv.onCommitTrig ++
            port_send_tuple txn ++ fin.2⟩
      else ⟨some .assertFailed, s, []⟩
    else
      let fin := txn_finish s
      ⟨none, fin.1, txn.on_commit.map TxnEv.onCommitTrig ++
        port_send_tuple txn ++ fin.2⟩

/-- `txn_rollback()`: no-op when `in_txn()` is null; otherwise, when a tuple
was changed, reinstate the displaced tuple through the engine
(`space_replace(space, new_tuple, old_tuple, DUP_INSERT)`), run the
rollback triggers and drop the reference taken on `new_tuple`; in every
case release the scratch region and clear `in_txn()`. -/
def txn_rollback (s : Sys) : Sys × List TxnEv :=
  match s.cur with
  | none => (s, [])
  | some txn =>
    if txn.old_tuple.isSome || txn.new_tuple.isSome then
      let res := space_replace s.engine txn.new_tuple txn.old_tuple DupMode.DUP_INSERT
      let evs1 := TxnEv.engReplace txn.new_tuple txn.old_tuple DupMode.DUP_INSERT ::
        txn.on_rollback.map TxnEv.onRollbackTrig
      let step : (Tuple → Int) × List TxnEv :=
        match txn.new_tuple with
        | some nt => (bumpRef s.refs nt (-1), [TxnEv.refBump nt (-1)])
        | none => (s.refs, [])
      ({ engine := res.1, cur := none, refs := step.1 },
       evs1 ++ step.2 ++ [TxnEv.regionRelease, TxnEv.clearTxn])
    else
      ({ s with cur := none }, [TxnEv.regionRelease, TxnEv.clearTxn])

/-- An empty system state, used by the concrete witnesses. -/
def sysEmpty : Sys :=
  { engine := fun _ => none, cur := none, refs := fun _ => 0 }

/-- A system state with a live (fresh) transaction. -/
def sysLive : Sys :=
  { engine := fun _ => none, cur := some freshTxn, refs := fun _ => 0 }

/-- C9 -- `txn_begin()` fails with `TxnAlreadyActive` whenever a transaction
is already live on the task; when none is live it installs a fresh
transaction with empty `on_commit`/`on_rollback` trigger lists in the
task-local slot. -/
theorem txn_begin_spec (s : Sys) :
    (s.cur.isSome → txn_begin s = .error .txnAlreadyActive) ∧
    (s.cur = none → txn_begin s = .ok { s with cur := some freshTxn }) := by
  constructor
  · intro h
    cases hc : s.cur with
    | none => rw [hc] at h; simp at h
    | some t => simp [txn_begin, hc]
  · intro h
    simp [txn_begin, h]

/-- Witness for C9 at concrete states: a state with a live transaction and
an empty state. -/
theorem txn_begin_spec_witness :
    txn_begin sysLive = .error .txnAlreadyActive ∧
    txn_begin sysEmpty = .ok { sysEmpty with cur := some freshTxn } := by
  exact ⟨(txn_begin_spec sysLive).1 (by simp [sysLive]),
    (txn_begin_spec sysEmpty).2 rfl⟩

/-- Bumping a reference count up and back down is the identity. -/
theorem bumpRef_cancel (refs : Tuple → Int) (t : Tuple) (d : Int) (u : Tuple) :
    bumpRef (bumpRef refs t d) t (-d) u = refs u := by
  by_cases h : u = t <;> simp [bumpRef, h]

/-- Rolling back right after a `txn_begin`-then-`txn_replace` pair restores
the engine's index, the reference counts, and clears the task slot. -/
theorem rollback_after_replace (eng0 : Nat → Option Tuple) (refs0 : Tuple → Int)
    (hk : Keyed eng0) (sp : Space) (old_tuple new_tuple : Option Tuple)
    (mode : DupMode) (s2 : Sys) (evr : List TxnEv)
    (hr : txn_replace sp old_tuple new_tuple mode
      { engine := eng0, cur := some freshTxn, refs := refs0 } = .ok (s2, evr)) :
    (∀ q, (txn_rollback s2).1.engine q = eng0 q) ∧
    (txn_rollback s2).1.cur = none ∧
    (∀ t, (txn_rollback s2).1.refs t = refs0 t) := by
  cases new_tuple with
  | some nt =>
    cases hd : eng0 nt.k with
    | some d =>
      have hdk : d.k = nt.k := hk nt.k d hd
      simp only [txn_replace, space_replace, freshTxn, Option.isNone_none,
        Option.isNone_some, Bool.and_false, Bool.false_eq_true, if_false,
        hd, Except.ok.injEq, Prod.mk.injEq] at hr
      obtain ⟨hs2, -⟩ := hr
      subst hs2
      refine ⟨?_, rfl, ?_⟩
      · intro q
        simp only [txn_rollback, space_replace, hdk]
        by_cases hq : q = nt.k
        · subst hq; simp [hd]
        · simp [hq]
      · intro t
        have hb := bumpRef_cancel refs0 nt 1 t
        simpa [txn_rollback] using hb
    | none =>
      simp only [txn_replace, space_replace, freshTxn, Option.isNone_none,
        Option.isNone_some, Bool.and_false, Bool.false_eq_true, if_false,
        hd, Except.ok.injEq, Prod.mk.injEq] at hr
      obtain ⟨hs2, -⟩ := hr
      subst hs2
      refine ⟨?_, rfl, ?_⟩
      · intro q
        simp only [txn_rollback, space_replace]
        by_cases hq : q = nt.k
        · subst hq; simp [hd]
        · simp [hq]
      · intro t
        have hb := bumpRef_cancel refs0 nt 1 t
        simpa [txn_rollback] using hb
  | none =>
    cases old_tuple with
    | none => simp [txn_replace] at hr
    | some ot =>
      cases hd : eng0 ot.k with
      | some d =>
        have hdk : d.k = ot.k := hk ot.k d hd
        simp only [txn_replace, space_replace, freshTxn, Option.isNone_none,
          Option.isNone_some, Bool.and_false, Bool.false_and, Bool.false_eq_true,
          if_false, hd, Except.ok.injEq, Prod.mk.injEq] at hr
        obtain ⟨hs2, -⟩ := hr
        subst hs2
        refine ⟨?_, rfl, fun t => rfl⟩
        intro q
        simp only [txn_rollback, space_replace, hdk]
        by_cases hq : q = ot.k
        · subst hq; simp [hd, hdk]
        · simp [hq, hdk]
      | none =>
        simp only [txn_replace, space_replace, freshTxn, Option.isNone_none,
          Option.isNone_some, Bool.and_false, Bool.false_and, Bool.false_eq_true,
          if_false, hd, Except.ok.injEq, Prod.mk.injEq] at hr
        obtain ⟨hs2, -⟩ := hr
        subst hs2
        refine ⟨?_, rfl, fun t => rfl⟩
        intro q
        simp only [txn_rollback]
        by_cases hq : q = ot.k
        · subst hq; simp [hd]
        · simp [hq]

/-- A successful `txn_replace` leaves a live transaction in the task slot. -/
theorem txn_replace_live (sp : Space) (old_tuple new_tuple : Option Tuple)
    (mode : DupMode) (s s2 : Sys) (evr : List TxnEv)
    (h : txn_replace sp old_tuple new_tuple mode s = .ok (s2, evr)) :
    ∃ txn, s2.cur = some txn := by
  cases hc : s.cur with
  | none => simp [txn_replace, hc] at h
  | some txn =>
    by_cases ha : old_tuple.isNone && new_tuple.isNone
    · simp [txn_replace, hc, ha] at h
    · simp only [txn_replace, hc, ha, Bool.false_eq_true, if_false,
        Except.ok.injEq, Prod.mk.injEq] at h
      exact ⟨_, by rw [← h.1]⟩

/-- The actions `txn_rollback` performs on a live changed transaction:
engine restore call, rollback triggers, reference release, region release
and slot clear. -/
theorem txn_rollback_actions (s : Sys) (txn : Txn) (h : s.cur = some txn) :
    TxnEv.regionRelease ∈ (txn_rollback s).2 ∧
    TxnEv.clearTxn ∈ (txn_rollback s).2 ∧
    ((txn.old_tuple.isSome || txn.new_tuple.isSome) = true →
      TxnEv.engReplace txn.new_tuple txn.old_tuple DupMode.DUP_INSERT ∈ (txn_rollback s).2 ∧
      (∀ nt, txn.new_tuple = some nt → TxnEv.refBump nt (-1) ∈ (txn_rollback s).2) ∧
      (∀ id ∈ txn.on_rollback, TxnEv.onRollbackTrig id ∈ (txn_rollback s).2)) := by
  by_cases hch : (txn.old_tuple.isSome || txn.new_tuple.isSome) = true
  · cases hnt : txn.new_tuple with
    | some nt =>
      refine ⟨?_, ?_, fun _ => ⟨?_, ?_, ?_⟩⟩ <;>
        simp [txn_rollback, h, hch, hnt]
    | none =>
      refine ⟨?_, ?_, fun _ => ⟨?_, ?_, ?_⟩⟩ <;>
        simp [txn_rollback, h, hch, hnt] <;> intros <;> simp_all
  · refine ⟨?_, ?_, fun hc => absurd hc hch⟩ <;> simp [txn_rollback, h, hch]

/-- C3 -- `txn_rollback()` is a no-op when no transaction is live on the
task.  Otherwise, when a tuple was changed, it reinstates the
pre-transaction engine state through `space_replace(new, old, DUP_INSERT)`,
fires the `on_rollback` triggers and releases the reference taken on
`new_tuple`; in every case it ends with the task slot cleared and the
scratch region released, so `begin(); replace(...); rollback()` leaves the
engine (and the reference counts) exactly as they were before `begin()`. -/
theorem txn_rollback_spec :
    (∀ (s0 s1 s2 : Sys) (sp : Space) (old_tuple new_tuple : Option Tuple)
        (mode : DupMode) (evr : List TxnEv),
      Keyed s0.engine →
      txn_begin s0 = .ok s1 →
      txn_replace sp old_tuple new_tuple mode s1 = .ok (s2, evr) →
      (∀ q, (txn_rollback s2).1.engine q = s0.engine q) ∧
      (txn_rollback s2).1.cur = none ∧
      (∀ t, (txn_rollback s2).1.refs t = s0.refs t) ∧
      TxnEv.regionRelease ∈ (txn_rollback s2).2 ∧
      TxnEv.clearTxn ∈ (txn_rollback s2).2 ∧
      (∀ txn, s2.cur = some txn →
        (txn.old_tuple.isSome || txn.new_tuple.isSome) = true →
        TxnEv.engReplace txn.new_tuple txn.old_tuple DupMode.DUP_INSERT ∈ (txn_rollback s2).2 ∧
        (∀ nt, txn.new_tuple = some nt →
          TxnEv.refBump nt (-1) ∈ (txn_rollback s2).2) ∧
        (∀ id ∈ txn.on_rollback, TxnEv.onRollbackTrig id ∈ (txn_rollback s2).2))) ∧
    (∀ s : Sys, s.cur = none → txn_rollback s = (s, [])) := by
  constructor
  · intro s0 s1 s2 sp old_tuple new_tuple mode evr hk hb hr
    have hs1 : s1 = { engine := s0.engine, cur := some freshTxn, refs := s0.refs } := by
      cases hc : s0.cur with
      | some t => simp [txn_begin, hc] at hb
      | none =>
        simp only [txn_begin, hc, Except.ok.injEq] at hb
        rw [← hb]
    rw [hs1] at hr
    have core := rollback_after_replace s0.engine s0.refs hk sp old_tuple
      new_tuple mode s2 evr hr
    obtain ⟨txn, hcur⟩ := txn_replace_live sp old_tuple new_tuple mode _ s2 evr hr
    have acts := txn_rollback_actions s2 txn hcur
    refine ⟨core.1, core.2.1, core.2.2, acts.1, acts.2.1, ?_⟩
    intro txn2 hcur2 hch
    rw [hcur] at hcur2
    cases hcur2
    exact acts.2.2 hch
  · intro s h
    simp [txn_rollback, h]

/-- The concrete tuple, space and intermediate states used by the
transaction witnesses. -/
def tupA : Tuple := { k := 1, v := 2 }

/-- A plain non-temporary space with no replace triggers. -/
def spcA : Space := { on_replace := [], run_triggers := true, temporary := false }

/-- State after `txn_begin` on the empty system. -/
def s1c : Sys := { sysEmpty with cur := some freshTxn }

/-- State after inserting `tupA`, written with the unreduced projections so
that the provenance equations hold by `rfl`. -/
def s2c : Sys :=
  { engine := (space_replace sysEmpty.engine none (some tupA) DupMode.DUP_INSERT).1,
    cur := some { old_tuple := (space_replace sysEmpty.engine none (some tupA)
                    DupMode.DUP_INSERT).2,
                  new_tuple := some tupA, space := some spcA, row := none,
                  on_commit := [], on_rollback := [] },
    refs := bumpRef sysEmpty.refs tupA 1 }

/-- Events emitted by the witness `txn_replace`. -/
def evrC : List TxnEv :=
  [TxnEv.engReplace none (some tupA) DupMode.DUP_INSERT, TxnEv.refBump tupA 1]

/-- Witness for C3: run `begin(); replace(spcA, none, tupA); rollback()` on
the empty system and observe the restored engine slot, the cleared task
slot and the restored reference count of `tupA`. -/
theorem txn_rollback_spec_witness :
    (txn_rollback s2c).1.engine 1 = none ∧
    (txn_rollback s2c).1.cur = none ∧
    (txn_rollback s2c).1.refs tupA = 0 := by
  have hk : Keyed sysEmpty.engine := fun q t h => by simp [sysEmpty] at h
  have hb : txn_begin sysEmpty = .ok s1c := rfl
  have hr : txn_replace spcA none (some tupA) DupMode.DUP_INSERT s1c
      = .ok (s2c, evrC) := rfl
  have h := (txn_rollback_spec.1 sysEmpty s1c s2c spcA none (some tupA)
    DupMode.DUP_INSERT evrC hk hb hr)
  exact ⟨h.1 1, h.2.1, h.2.2.1 tupA⟩

/-! ## Event classes for the commit ordering claims -/

/-- The appender call (`wal_write`). -/
def isWalEv : TxnEv → Bool
  | .walWrite _ => true
  | _ => false

/-- A commit trigger firing. -/
def isCommitTrigEv : TxnEv → Bool
  | .onCommitTrig _ => true
  | _ => false

/-- A delivery to the result sink. -/
def isPortEv : TxnEv → Bool
  | .portAddTuple _ => true
  | _ => false

/-- An action of `txn_finish` (engine finalizer, region release, slot
clear). -/
def isFinishEv : TxnEv → Bool
  | .engineTxnFinish => true
  | .regionRelease => true
  | .clearTxn => true
  | _ => false

/-- Every `p`-event of `l` occurs before every `q`-event: the trace splits
into a prefix free of `q`-events and a suffix free of `p`-events. -/
def phaseSplit (l : List TxnEv) (p q : TxnEv → Bool) : Prop :=
  ∃ l1 l2, l = l1 ++ l2 ∧ (∀ e ∈ l1, q e = false) ∧ (∀ e ∈ l2, p e = false)

/-- An event whose class is `true` cannot sit in a list whose members all
have class `false`. -/
theorem not_mem_of_class {p : TxnEv → Bool} {l : List TxnEv} {e : TxnEv}
    (h : ∀ x ∈ l, p x = false) (he : p e = true) : e ∉ l := by
  intro hm
  rw [h e hm] at he
  exact absurd he (by simp)

/-- Class census of the `txn_finish` segment. -/
theorem finish_evs_class (s : Sys) :
    ∀ e ∈ (txn_finish s).2,
      isWalEv e = false ∧ isCommitTrigEv e = false ∧ isPortEv e = false := by
  cases hc : s.cur with
  | none => simp [txn_finish, hc]
  | some txn =>
    cases ho : txn.old_tuple <;> cases hs : txn.space <;>
      simp [txn_finish, hc, ho, hs, isWalEv, isCommitTrigEv, isPortEv]

/-- Class census of the `port_send_tuple` segment. -/
theorem port_evs_class (txn : Txn) :
    ∀ e ∈ port_send_tuple txn,
      isWalEv e = false ∧ isCommitTrigEv e = false ∧ isFinishEv e = false := by
  cases hv : visible_tuple txn <;>
    simp [port_send_tuple, hv, isWalEv, isCommitTrigEv, isFinishEv]

/-- Class census of the commit trigger segment. -/
theorem trig_evs_class (l : List Nat) :
    ∀ e ∈ l.map TxnEv.onCommitTrig,
      isWalEv e = false ∧ isPortEv e = false ∧ isFinishEv e = false := by
  simp [List.mem_map, isWalEv, isPortEv, isFinishEv]

/-- Class census of the appender segment of `txn_commit`. -/
theorem wal_evs_class (r : Option IprotoRow) (w : Bool) :
    ∀ e ∈ TxnEv.walWrite r :: (if w then [TxnEv.warnTooLong] else []),
      isCommitTrigEv e = false ∧ isPortEv e = false ∧ isFinishEv e = false := by
  cases w <;> simp [isCommitTrigEv, isPortEv, isFinishEv]

/-- The port segment delivers exactly the visible tuple. -/
theorem port_send_mem (txn : Txn) (t : Tuple) :
    TxnEv.portAddTuple t ∈ port_send_tuple txn ↔ visible_tuple txn = some t := by
  cases hv : visible_tuple txn <;> simp [port_send_tuple, hv]
  exact eq_comm

/-- `txn_finish` clears the task slot. -/
theorem txn_finish_clears (s : Sys) (txn : Txn) (h : s.cur = some txn) :
    (txn_finish s).1.cur = none := by
  simp [txn_finish, h]

/-- `txn_finish` releases the region and clears the slot, observably. -/
theorem txn_finish_tail (s : Sys) (txn : Txn) (h : s.cur = some txn) :
    TxnEv.clearTxn ∈ (txn_finish s).2 := by
  cases ho : txn.old_tuple <;> cases hs : txn.space <;>
    simp [txn_finish, h, ho, hs]

/-- C1 -- on a successful `txn_commit` the appender is invoked if and only
if at least one tuple was changed and the space is not temporary; when it
is invoked it completes before the `on_commit` triggers fire, the triggers
fire before the visible tuple (`new_tuple` if present, else `old_tuple`)
is delivered to the result sink, and the delivery happens before
`txn_finish` releases the region and clears the transaction. -/
theorem txn_commit_order (s : Sys) (txn : Txn) (wmode : WalMode) (tooLong : Bool)
    (hcur : s.cur = some txn) (hrow : wmode = WalMode.NONE ∨ txn.row.isSome = true) :
    (txn_commit s wmode 0 tooLong).err = none ∧
    ((∃ r, TxnEv.walWrite r ∈ (txn_commit s wmode 0 tooLong).evs) ↔
      ((txn.old_tuple.isSome || txn.new_tuple.isSome) && !tempOf txn.space) = true) ∧
    (∀ t, TxnEv.portAddTuple t ∈ (txn_commit s wmode 0 tooLong).evs ↔
      visible_tuple txn = some t) ∧
    phaseSplit (txn_commit s wmode 0 tooLong).evs isWalEv isCommitTrigEv ∧
    phaseSplit (txn_commit s wmode 0 tooLong).evs isCommitTrigEv isPortEv ∧
    phaseSplit (txn_commit s wmode 0 tooLong).evs isPortEv isFinishEv ∧
    (txn_commit s wmode 0 tooLong).sys.cur = none ∧
    TxnEv.clearTxn ∈ (txn_commit s wmode 0 tooLong).evs := by
  have hBwal : ∀ e ∈ txn.on_commit.map TxnEv.onCommitTrig, isWalEv e = false :=
    fun e he => (trig_evs_class _ e he).1
  have hBport : ∀ e ∈ txn.on_commit.map TxnEv.onCommitTrig, isPortEv e = false :=
    fun e he => (trig_evs_class _ e he).2.1
  have hBfin : ∀ e ∈ txn.on_commit.map TxnEv.onCommitTrig, isFinishEv e = false :=
    fun e he => (trig_evs_class _ e he).2.2
  have hCwal : ∀ e ∈ port_send_tuple txn, isWalEv e = false :=
    fun e he => (port_evs_class _ e he).1
  have hCtrig : ∀ e ∈ port_send_tuple txn, isCommitTrigEv e = false :=
    fun e he => (port_evs_class _ e he).2.1
  have hCfin : ∀ e ∈ port_send_tuple txn, isFinishEv e = false :=
    fun e he => (port_evs_class _ e he).2.2
  have hDwal : ∀ e ∈ (txn_finish s).2, isWalEv e = false :=
    fun e he => (finish_evs_class s e he).1
  have hDtrig : ∀ e ∈ (txn_finish s).2, isCommitTrigEv e = false :=
    fun e he => (finish_evs_class s e he).2.1
  have hDport : ∀ e ∈ (txn_finish s).2, isPortEv e = false :=
    fun e he => (finish_evs_class s e he).2.2
  by_cases hcond :
      ((txn.old_tuple.isSome || txn.new_tuple.isSome) && !tempOf txn.space) = true
  · have hout : txn_commit s wmode 0 tooLong =
        ⟨none, (txn_finish s).1,
          (TxnEv.walWrite txn.row ::
            (if tooLong && txn.row.isSome then [TxnEv.warnTooLong] else [])) ++
            txn.on_commit.map TxnEv.onCommitTrig ++ port_send_tuple txn ++
            (txn_finish s).2⟩ := by
      simp [txn_commit, hcur, hcond, hrow]
    have hAtrig : ∀ e ∈ TxnEv.walWrite txn.row ::
        (if tooLong && txn.row.isSome then [TxnEv.warnTooLong] else []),
        isCommitTrigEv e = false := fun e he => (wal_evs_class _ _ e he).1
    have hAport : ∀ e ∈ TxnEv.walWrite txn.row ::
        (if tooLong && txn.row.isSome then [TxnEv.warnTooLong] else []),
        isPortEv e = false := fun e he => (wal_evs_class _ _ e he).2.1
    have hAfin : ∀ e ∈ TxnEv.walWrite txn.row ::
        (if tooLong && txn.row.isSome then [TxnEv.warnTooLong] else []),
        isFinishEv e = false := fun e he => (wal_evs_class _ _ e he).2.2
    rw [hout]
    refine ⟨rfl, ?_, ?_, ?_, ?_, ?_, txn_finish_clears s txn hcur, ?_⟩
    · exact ⟨fun _ => hcond, fun _ => ⟨txn.row, by simp⟩⟩
    · intro t
      simp only [List.mem_append]
      constructor
      · rintro (((hm | hm) | hm) | hm)
        · exact absurd hm (not_mem_of_class hAport rfl)
        · exact absurd hm (not_mem_of_class hBport rfl)
        · exact (port_send_mem txn t).1 hm
        · exact absurd hm (not_mem_of_class hDport rfl)
      · intro hv
        exact Or.inl (Or.inr ((port_send_mem txn t).2 hv))
    · refine ⟨_, txn.on_commit.map TxnEv.onCommitTrig ++ port_send_tuple txn ++
        (txn_finish s).2, by simp, hAtrig, ?_⟩
      intro e he
      rcases List.mem_append.1 he with he2 | he2
      · rcases List.mem_append.1 he2 with he3 | he3
        · exact hBwal e he3
        · exact hCwal e he3
      · exact hDwal e he2
    · refine ⟨(TxnEv.walWrite txn.row ::
        (if tooLong && txn.row.isSome then [TxnEv.warnTooLong] else [])) ++
        txn.on_commit.map TxnEv.onCommitTrig,
        port_send_tuple txn ++ (txn_finish s).2, by simp, ?_, ?_⟩
      · intro e he
        rcases List.mem_append.1 he with he2 | he2
        · exact hAport e he2
        · exact hBport e he2
      · intro e he
        rcases List.mem_append.1 he with he2 | he2
        · exact hCtrig e he2
        · exact hDtrig e he2
    · refine ⟨(TxnEv.walWrite txn.row ::
        (if tooLong && txn.row.isSome then [TxnEv.warnTooLong] else [])) ++
        txn.on_commit.map TxnEv.onCommitTrig ++ port_send_tuple txn,
        (txn_finish s).2, by simp, ?_, hDport⟩
      intro e he
      rcases List.mem_append.1 he with he2 | he2
      · rcases List.mem_append.1 he2 with he3 | he3
        · exact hAfin e he3
        · exact hBfin e he3
      · exact hCfin e he2
    · exact List.mem_append_right _ (txn_finish_tail s txn hcur)
  · have hout : txn_commit s wmode 0 tooLong =
        ⟨none, (txn_finish s).1,
          txn.on_commit.map TxnEv.onCommitTrig ++ port_send_tuple txn ++
            (txn_finish s).2⟩ := by
      simp [txn_commit, hcur, hcond]
    rw [hout]
    refine ⟨rfl, ?_, ?_, ?_, ?_, ?_, txn_finish_clears s txn hcur, ?_⟩
    · constructor
      · rintro ⟨r, hm⟩
        have hwal : ∀ e ∈ txn.on_commit.map TxnEv.onCommitTrig ++
            port_send_tuple txn ++ (txn_finish s).2, isWalEv e = false := by
          intro e he
          rcases List.mem_append.1 he with he2 | he2
          · rcases List.mem_append.1 he2 with he3 | he3
            · exact hBwal e he3
            · exact hCwal e he3
          · exact hDwal e he2
        exact absurd hm (not_mem_of_class hwal rfl)
      · intro h
        exact absurd h hcond
    · intro t
      simp only [List.mem_append]
      constructor
      · rintro ((hm | hm) | hm)
        · exact absurd hm (not_mem_of_class hBport rfl)
        · exact (port_send_mem txn t).1 hm
        · exact absurd hm (not_mem_of_class hDport rfl)
      · intro hv
        exact Or.inl (Or.inr ((port_send_mem txn t).2 hv))
    · refine ⟨[], _, rfl, by simp, ?_⟩
      intro e he
      rcases List.mem_append.1 he with he2 | he2
      · rcases List.mem_append.1 he2 with he3 | he3
        · exact hBwal e he3
        · exact hCwal e he3
      · exact hDwal e he2
    · refine ⟨txn.on_commit.map TxnEv.onCommitTrig,
        port_send_tuple txn ++ (txn_finish s).2, by simp, hBport, ?_⟩
      intro e he
      rcases List.mem_append.1 he with he2 | he2
      · exact hCtrig e he2
      · exact hDtrig e he2
    · refine ⟨txn.on_commit.map TxnEv.onCommitTrig ++ port_send_tuple txn,
        (txn_finish s).2, by simp, ?_, hDport⟩
      intro e he
      rcases List.mem_append.1 he with he2 | he2
      · exact hBfin e he2
      · exact hCfin e he2
    · exact List.mem_append_right _ (txn_finish_tail s txn hcur)

/-- The redo row used by the commit witnesses. -/
def rowC : IprotoRow := { typ := 3, bodycnt := 1 }

/-- The request used by the commit witnesses. -/
def reqC : Request := { typ := 3, header := some rowC, encodeCnt := 1 }

/-- Witness state after `begin; replace; add_redo` with log mode WRITE. -/
def s3c : Sys := txn_add_redo reqC WalMode.WRITE s2c

/-- The live transaction inside `s3c`. -/
def txnC : Txn :=
  { old_tuple := (space_replace sysEmpty.engine none (some tupA) DupMode.DUP_INSERT).2,
    new_tuple := some tupA, space := some spcA, row := some rowC,
    on_commit := [], on_rollback := [] }

/-- Witness for C1: committing the insert of `tupA` on the witness state
with log mode `WRITE` (row present) succeeds, invokes the appender and
clears the task slot. -/
theorem txn_commit_order_witness :
    (txn_commit s3c WalMode.WRITE 0 false).err = none ∧
    (∃ r, TxnEv.walWrite r ∈ (txn_commit s3c WalMode.WRITE 0 false).evs) ∧
    (txn_commit s3c WalMode.WRITE 0 false).sys.cur = none := by
  have h := txn_commit_order s3c txnC WalMode.WRITE false rfl (Or.inr rfl)
  exact ⟨h.1, h.2.1.2 (by decide), h.2.2.2.2.2.2.1⟩

/-- The transaction produced by `txn_begin` followed by `txn_replace`. -/
def replacedTxn (eng0 : Nat → Option Tuple) (old_tuple new_tuple : Option Tuple)
    (mode : DupMode) (sp : Space) : Txn :=
  { old_tuple := (space_replace eng0 old_tuple new_tuple mode).2,
    new_tuple := new_tuple, space := some sp, row := none,
    on_commit := [], on_rollback := [] }

/-- A system state whose live transaction is `txn` with its redo row
replaced by `r`. -/
def withRow (s : Sys) (txn : Txn) (r : Option IprotoRow) : Sys :=
  { s with cur := some { txn with row := r } }

/-- Shape of the state produced by `txn_replace` on a fresh transaction. -/
theorem txn_replace_shape (sp : Space) (old_tuple new_tuple : Option Tuple)
    (mode : DupMode) (eng0 : Nat → Option Tuple) (refs0 : Tuple → Int)
    (s2 : Sys) (evr : List TxnEv)
    (hr : txn_replace sp old_tuple new_tuple mode
      { engine := eng0, cur := some freshTxn, refs := refs0 } = .ok (s2, evr)) :
    s2.engine = (space_replace eng0 old_tuple new_tuple mode).1 ∧
    s2.cur = some (replacedTxn eng0 old_tuple new_tuple mode sp) := by
  cases new_tuple with
  | some nt =>
    simp only [txn_replace, freshTxn, Option.isNone_none, Option.isNone_some,
      Bool.and_false, Bool.false_eq_true, if_false, Except.ok.injEq,
      Prod.mk.injEq] at hr
    obtain ⟨hs2, -⟩ := hr
    rw [← hs2]
    exact ⟨rfl, rfl⟩
  | none =>
    cases old_tuple with
    | none => simp [txn_replace] at hr
    | some ot =>
      simp only [txn_replace, freshTxn, Option.isNone_none, Option.isNone_some,
        Bool.and_false, Bool.false_and, Bool.false_eq_true, if_false,
        Except.ok.injEq, Prod.mk.injEq] at hr
      obtain ⟨hs2, -⟩ := hr
      rw [← hs2]
      exact ⟨rfl, rfl⟩

/-- `txn_add_redo` only replaces the live transaction's redo row, and after
it the commit-time assertion `wal_mode == NONE || row != NULL` holds. -/
theorem txn_add_redo_shape (req : Request) (wmode : WalMode) (s : Sys) (txn : Txn)
    (h : s.cur = some txn) :
    ∃ r : Option IprotoRow,
      txn_add_redo req wmode s = withRow s txn r ∧
      (wmode = WalMode.NONE ∨ r.isSome = true) := by
  by_cases hw : wmode = WalMode.NONE ∨ req.header.isSome = true
  · refine ⟨req.header, by simp [txn_add_redo, withRow, h, hw], hw⟩
  · refine ⟨some { typ := req.typ, bodycnt := req.encodeCnt },
      by simp [txn_add_redo, withRow, h, hw], Or.inr rfl⟩

/-- `txn_rollback` never reads the redo row. -/
theorem txn_rollback_row_irrelevant (s : Sys) (txn : Txn) (r : Option IprotoRow)
    (h : s.cur = some txn) :
    txn_rollback (withRow s txn r) = txn_rollback s := by
  by_cases hch : (txn.old_tuple.isSome || txn.new_tuple.isSome) = true
  · cases hnt : txn.new_tuple <;> simp [txn_rollback, withRow, h, hch, hnt]
  · simp [txn_rollback, withRow, h, hch]

/-- C8 -- when the appender's write fails during `txn_commit`, the commit
raises `WalIoError` after the appender call but before any `on_commit`
trigger, any sink delivery, or any `txn_finish` action; the state is
untouched and the transaction stays live, so the caller's `txn_rollback`
restores the pre-transaction engine state. -/
theorem txn_commit_wal_failure (s0 s1 s2 : Sys) (sp : Space)
    (old_tuple new_tuple : Option Tuple) (mode : DupMode) (evr : List TxnEv)
    (req : Request) (wmode : WalMode) (walRes : Int) (tooLong : Bool)
    (hk : Keyed s0.engine)
    (hb : txn_begin s0 = .ok s1)
    (hr : txn_replace sp old_tuple new_tuple mode s1 = .ok (s2, evr))
    (hfail : walRes ≠ 0)
    (htemp : sp.temporary = false)
    (hch : ((space_replace s0.engine old_tuple new_tuple mode).2.isSome ||
      new_tuple.isSome) = true) :
    (txn_commit (txn_add_redo req wmode s2) wmode walRes tooLong).err = some .walIo ∧
    (txn_commit (txn_add_redo req wmode s2) wmode walRes tooLong).sys =
      txn_add_redo req wmode s2 ∧
    (∃ r, TxnEv.walWrite r ∈ (txn_commit (txn_add_redo req wmode s2) wmode
      walRes tooLong).evs) ∧
    (∀ e ∈ (txn_commit (txn_add_redo req wmode s2) wmode walRes tooLong).evs,
      isCommitTrigEv e = false ∧ isPortEv e = false ∧ isFinishEv e = false) ∧
    (txn_add_redo req wmode s2).cur.isSome = true ∧
    (∀ q, (txn_rollback (txn_add_redo req wmode s2)).1.engine q = s0.engine q) ∧
    (txn_rollback (txn_add_redo req wmode s2)).1.cur = none := by
  have hs1 : s1 = { engine := s0.engine, cur := some freshTxn, refs := s0.refs } := by
    cases hc : s0.cur with
    | some t => simp [txn_begin, hc] at hb
    | none =>
      simp only [txn_begin, hc, Except.ok.injEq] at hb
      rw [← hb]
  rw [hs1] at hr
  have shape := txn_replace_shape sp old_tuple new_tuple mode s0.engine s0.refs
    s2 evr hr
  obtain ⟨r, hs3, hrr⟩ := txn_add_redo_shape req wmode s2 _ shape.2
  have hout : txn_commit (txn_add_redo req wmode s2) wmode walRes tooLong =
      ⟨some .walIo, txn_add_redo req wmode s2,
        TxnEv.walWrite r :: (if tooLong && r.isSome then [TxnEv.warnTooLong]
          else [])⟩ := by
    rw [hs3]
    simp [txn_commit, withRow, replacedTxn, tempOf, htemp, hch, hrr, hfail]
  have hroll : txn_rollback (txn_add_redo req wmode s2) = txn_rollback s2 := by
    rw [hs3]
    exact txn_rollback_row_irrelevant s2 _ r shape.2
  have core := rollback_after_replace s0.engine s0.refs hk sp old_tuple
    new_tuple mode s2 evr hr
  rw [hout, hroll]
  refine ⟨rfl, rfl, ⟨r, by simp⟩, wal_evs_class r _, ?_, core.1, core.2.1⟩
  rw [hs3]
  simp [withRow]

/-- Witness for C8: a failing appender write (`walRes = 1`) on the witness
insert leaves the error, and rollback restores the engine. -/
theorem txn_commit_wal_failure_witness :
    (txn_commit (txn_add_redo reqC WalMode.WRITE s2c) WalMode.WRITE 1 false).err
      = some .walIo ∧
    (txn_rollback (txn_add_redo reqC WalMode.WRITE s2c)).1.engine 1 = none ∧
    (txn_rollback (txn_add_redo reqC WalMode.WRITE s2c)).1.cur = none := by
  have hk : Keyed sysEmpty.engine := fun q t h => by simp [sysEmpty] at h
  have h := txn_commit_wal_failure sysEmpty s1c s2c spcA none (some tupA)
    DupMode.DUP_INSERT evrC reqC WalMode.WRITE 1 false hk rfl rfl
    (by decide) rfl (by decide)
  exact ⟨h.1, h.2.2.2.2.2.1 1, h.2.2.2.2.2.2⟩

/-! ## The v11 xlog format: bytes, CRC, and the streaming cursor
(`xlog_v11.c`).  A log file is a byte list; the stdio stream is modelled by
an explicit position: `fread` of `n` bytes succeeds when `n` bytes remain
(advancing by `n`) and otherwise consumes the remaining bytes (the position
ends at the file length), matching stdio's short-read behaviour. -/

/-- A byte. -/
abbrev Byte := Fin 256

/-- A log file's contents. -/
abbrev XFile := List Byte

/-- Little-endian value of a byte list. -/
def leNat : List Byte → Nat
  | [] => 0
  | b :: bs => b.val + 256 * leNat bs

/-- The low byte of `n`. -/
def byteOf (n : Nat) : Byte := ⟨n % 256, Nat.mod_lt _ (by norm_num)⟩

/-- The four little-endian bytes of a 32-bit value. -/
def u32le (n : Nat) : List Byte :=
  [byteOf n, byteOf (n / 256), byteOf (n / 65536), byteOf (n / 16777216)]

/-- One reflected CRC32C shift step (Castagnoli polynomial 0x82F63B78). -/
def crc32cShift (c : Nat) : Nat :=
  if c % 2 = 1 then (c / 2) ^^^ 0x82F63B78 else c / 2

/-- `n` CRC32C shift steps. -/
def crc32cSteps (c : Nat) : Nat → Nat
  | 0 => c
  | n + 1 => crc32cSteps (crc32cShift c) n

/-- `crc32_calc(crc, buf, len)`: table-free bitwise form of the
CRC32-Castagnoli the source computes over header and body bytes. -/
def crc32_calc (crc : Nat) (bytes : List Byte) : Nat :=
  bytes.foldl (fun c b => crc32cSteps (c ^^^ b.val) 8) crc

/-- `row_marker_v11 = 0xba0babed`. -/
def row_marker_v11 : Nat := 0xba0babed

/-- `eof_marker_v11 = 0x10adab1e`. -/
def eof_marker_v11 : Nat := 0x10adab1e

/-- `fread(buf, n, 1, f)` at position `pos`: on success returns the bytes
and advances by `n`; on a short read returns nothing and leaves the
position at end of file (stdio consumes the remaining bytes). -/
def freadN (f : XFile) (pos n : Nat) : Option (List Byte) × Nat :=
  if pos + n ≤ f.length then (some ((f.drop pos).take n), pos + n)
  else (none, f.length)

/-- The little-endian value of the 4-byte window of `f` at offset `j`. -/
def windowVal (f : XFile) (j : Nat) : Nat :=
  leNat ((f.drop j).take 4)

/-- The magic-scan loop of `xlog_cursor_v11_next`, with an explicit fuel
argument (the remaining byte count) so the recursion is structural: check
the four consumed bytes against the marker, else `fgetc` one byte and
shift it in; `magic >> 8 | c << 24` is written as `+` since the operands
occupy disjoint bit ranges. -/
def scanMarkerAux (f : XFile) (magic pos : Nat) : Nat → Option Nat
  | 0 => if magic = row_marker_v11 then some pos else none
  | fuel + 1 =>
    if magic = row_marker_v11 then some pos
    else if h : pos < f.length then
      scanMarkerAux f ((magic >>> 8) + ((f.get ⟨pos, h⟩).val <<< 24)) (pos + 1) fuel
    else none

/-- The scan loop: starting with `magic` (the last four consumed bytes,
stream position `pos`), slide one byte at a time until the row marker is
found; returns the stream position just after the marker, or `none` when
`fgetc` hits end of file. -/
def scanMarker (f : XFile) (pos : Nat) (magic : Nat) : Option Nat :=
  scanMarkerAux f magic pos (f.length - pos)

/-- Result of `row_reader_v11`: `ROW_EOF` on a short read, or the row bytes
(header then body) with `*rowlen`.  The source's `NULL` return arises only
from `region_alloc` failure (the scratch region, spec section 9) or the
`#if 0`-gated CRC checks, neither of which can occur in the model, so it
has no constructor here. -/
inductive ReadRow where
  | rowEof : ReadRow
  | rowOk : List Byte → Nat → ReadRow
deriving DecidableEq

/-- `row_reader_v11(f, rowlen)` at position `pos`: read the 28-byte
`struct header_v11` (`header_crc32c`, `lsn`, `tm`, `len`, `data_crc32c`),
then `len` body bytes.  Both CRCs are computed exactly as the source does
-- `header_crc32c` over bytes `[4, 28)` of the header (from `lsn` through
`data_crc32c`), `data_crc32c` over the body -- but the comparisons are
compiled out under `#if 0`, so a mismatch does not reject the record. -/
def row_reader_v11 (f : XFile) (pos : Nat) : ReadRow × Nat :=
  match freadN f pos 28 with
  | (none, p1) => (.rowEof, p1)
  | (some hdr, p1) =>
    let len := leNat ((hdr.drop 20).take 4)
    let hcrc := crc32_calc 0 (hdr.drop 4)
    match freadN f p1 len with
    | (none, p2) => (.rowEof, p2)
    | (some body, p2) =>
      let dcrc := crc32_calc 0 body
      let _unusedHeaderCrc := hcrc
      let _unusedDataCrc := dcrc
      (.rowOk (hdr ++ body) (len + 28), p2)

/-- `struct xlog_cursor` fields the v11 code uses. -/
structure XlogCursor where
  good_offset : Nat
  row_count : Nat
  eof_read : Bool
deriving DecidableEq

/-- Cursor plus the underlying stream position. -/
structure CState where
  cur : XlogCursor
  pos : Nat
deriving DecidableEq

/-- `xlog_cursor_v11_open`: `good_offset := ftello(f)`, counters reset. -/
def xlog_cursor_v11_open (pos : Nat) : CState :=
  { cur := { good_offset := pos, row_count := 0, eof_read := false }, pos := pos }

/-- `xlog_cursor_v11_close`: seek the stream back to the last known good
offset (the scratch-region release has no observable effect here). -/
def xlog_cursor_v11_close (st : CState) : CState :=
  { st with pos := st.cur.good_offset }

/-- The `eof:` label of `xlog_cursor_v11_next`: when the stream stopped
exactly 4 bytes past `good_offset`, re-read the magic there; an EOF marker
seals the file (`eof_read`, advance `good_offset`), a row marker is left
silent (file still being written), anything else is the
"eof marker is corrupt" error (the returned flag). -/
def xlogEofCheck (f : XFile) (c : XlogCursor) (p : Nat) : XlogCursor × Nat × Bool :=
  if p = c.good_offset + 4 then
    match freadN f c.good_offset 4 with
    | (none, p2) => (c, p2, false)
    | (some ms, p2) =>
      let magic := leNat ms
      if magic = eof_marker_v11 then
        ({ c with good_offset := p2, eof_read := true }, p2, false)
      else if magic ≠ row_marker_v11 then (c, p2, true)
      else (c, p2, false)
  else (c, p, false)

/-- Output of one `xlog_cursor_v11_next` call: the row (if any) with its
length, the new cursor/stream state, the skipped-bytes warning
(`say_warn("skipped %jd bytes ...")`) and the eof-marker-corrupt error
flag. -/
structure NextOut where
  row : Option (List Byte)
  rowlen : Nat
  st : CState
  skipped : Option Int
  eofCorrupt : Bool
deriving DecidableEq

/-- `xlog_cursor_v11_next(i, rowlen)`: read 4 bytes, scan for the row
marker, warn when bytes were skipped, decode the record; a decoded record
advances `good_offset` past its body and bumps `row_count`; every other
path funnels through the `eof:` label. -/
def xlog_cursor_v11_next (f : XFile) (st : CState) : NextOut :=
  let c := st.cur
  match freadN f st.pos 4 with
  | (none, p1) =>
    let ec := xlogEofCheck f c p1
    { row := none, rowlen := 0, st := { cur := ec.1, pos := ec.2.1 },
      skipped := none, eofCorrupt := ec.2.2 }
  | (some ms, p1) =>
    match scanMarker f p1 (leNat ms) with
    | none =>
      let ec := xlogEofCheck f c f.length
      { row := none, rowlen := 0, st := { cur := ec.1, pos := ec.2.1 },
        skipped := none, eofCorrupt := ec.2.2 }
    | some pAfter =>
      let markerOffset := pAfter - 4
      let skipped : Option Int :=
        if c.good_offset ≠ markerOffset then
          some ((markerOffset : Int) - (c.good_offset : Int))
        else none
      match row_reader_v11 f pAfter with
      | (.rowEof, p2) =>
        let ec := xlogEofCheck f c p2
        { row := none, rowlen := 0, st := { cur := ec.1, pos := ec.2.1 },
          skipped := skipped, eofCorrupt := ec.2.2 }
      | (.rowOk bytes rl, p2) =>
        { row := some bytes, rowlen := rl,
          st := { cur := { c with good_offset := p2, row_count := c.row_count + 1 },
                  pos := p2 },
          skipped := skipped, eofCorrupt := false }

/-- Iterated `next` calls (the cursor state after `k` calls). -/
def nextIter (f : XFile) (st : CState) : Nat → CState
  | 0 => st
  | k + 1 => nextIter f (xlog_cursor_v11_next f st).st k

/-- Full read-back: call `next` until it reports no more rows. -/
def readToEnd (f : XFile) (st : CState) : Nat → CState
  | 0 => st
  | k + 1 =>
    let o := xlog_cursor_v11_next f st
    if o.row.isSome then readToEnd f o.st k else o.st

/-- A cursor state at `good_offset = g`, stream position `p`. -/
def cursorAt (g p : Nat) : CState :=
  { cur := { good_offset := g, row_count := 0, eof_read := false }, pos := p }

/-- A framed header whose stored CRCs (both zero) do not match the CRCs the
reader computes: `lsn`/`tm` zero, `len = 1`, body `[7]`. -/
def hdrBad : List Byte :=
  u32le 0 ++ List.replicate 16 (0 : Byte) ++ u32le 1 ++ u32le 0

/-- A 29-byte file holding just that framed record (reader is positioned on
the header, after the row marker). -/
def fBad : XFile := hdrBad ++ [(7 : Byte)]

set_option maxRecDepth 8000 in
/-- C2 -- the v11 row reader computes both CRC32C values but the
comparisons are `#if 0`-gated, so a record whose stored `header_crc32c`
and `data_crc32c` both differ from the computed ones is still returned as
a good row instead of being rejected: the code contradicts the spec's
mandate that a faithful implementation verify and reject. -/
theorem row_reader_crc_gated :
    row_reader_v11 fBad 0 = (.rowOk (hdrBad ++ [(7 : Byte)]) 29, 29) ∧
    leNat ((hdrBad.drop 24).take 4) ≠ crc32_calc 0 [(7 : Byte)] ∧
    leNat (hdrBad.take 4) ≠ crc32_calc 0 (hdrBad.drop 4) := by decide

/-- A well-formed 33-byte record: marker, zero CRCs/lsn/tm, `len = 1`,
body `[7]`. -/
def recA : List Byte :=
  u32le row_marker_v11 ++ u32le 0 ++ List.replicate 16 (0 : Byte) ++
    u32le 1 ++ u32le 0 ++ [(7 : Byte)]

/-- A file whose first record's `len` field (1000) overruns the file, with
the valid `recA` right after it. -/
def fShortBody : XFile :=
  u32le row_marker_v11 ++ u32le 0 ++ List.replicate 16 (0 : Byte) ++
    u32le 1000 ++ u32le 0 ++ [(7 : Byte)] ++ recA

set_option maxRecDepth 8000 in
/-- Counterexample to C4 as stated: on `fShortBody` the body read falls
short after the marker at offset 0, and the cursor returns no row and
leaves `good_offset` at 0 -- it treats the file as ended -- even though
resynchronizing from the byte after the marker (position 1) would find and
yield the following valid record, as the last conjunct shows. -/
theorem cursor_short_body_cx :
    (xlog_cursor_v11_next fShortBody (cursorAt 0 0)).row = none ∧
    (xlog_cursor_v11_next fShortBody (cursorAt 0 0)).st.cur.good_offset = 0 ∧
    (xlog_cursor_v11_next fShortBody (cursorAt 0 0)).st.cur.eof_read = false ∧
    (xlog_cursor_v11_next fShortBody (cursorAt 0 1)).row.isSome = true := by
  decide

/-- `u32le` really is the little-endian encoding of a 32-bit value. -/
theorem leNat_u32le (n : Nat) : leNat (u32le n) = n % 4294967296 := by
  simp [u32le, leNat, byteOf]
  omega

/-- Expansion of a full 4-byte window into its bytes. -/
theorem window_expand (f : XFile) (j : Nat)
    (h0 : j < f.length) (h1 : j + 1 < f.length) (h2 : j + 2 < f.length)
    (h3 : j + 3 < f.length) :
    windowVal f j = (f.get ⟨j, h0⟩).val + 256 * (f.get ⟨j + 1, h1⟩).val +
      65536 * (f.get ⟨j + 2, h2⟩).val + 16777216 * (f.get ⟨j + 3, h3⟩).val := by
  unfold windowVal
  rw [List.drop_eq_getElem_cons h0, List.drop_eq_getElem_cons h1,
    List.drop_eq_getElem_cons h2, List.drop_eq_getElem_cons h3]
  simp only [List.take_succ_cons, List.take_zero, leNat, List.get_eq_getElem]
  ring

/-- Sliding the scan window one byte forward: shifting the next byte into
the magic register moves the window from offset `j` to `j + 1`. -/
theorem windowVal_step (f : XFile) (j : Nat) (h : j + 4 < f.length) :
    (windowVal f j) >>> 8 + ((f.get ⟨j + 4, h⟩).val <<< 24) = windowVal f (j + 1) := by
  have h0 : j < f.length := by omega
  have h1 : j + 1 < f.length := by omega
  have h2 : j + 2 < f.length := by omega
  have h3 : j + 3 < f.length := by omega
  have h4 : j + 1 + 3 < f.length := by omega
  rw [window_expand f j h0 h1 h2 h3, window_expand f (j + 1) h1 h2 h3 h4]
  have hc : f.get ⟨j + 1 + 3, h4⟩ = f.get ⟨j + 4, h⟩ := rfl
  rw [hc, Nat.shiftRight_eq_div_pow, Nat.shiftLeft_eq]
  have p8 : (2 : Nat) ^ 8 = 256 := by norm_num
  have p24 : (2 : Nat) ^ 24 = 16777216 := by norm_num
  rw [p8, p24]
  have hd : (f.get ⟨j, h0⟩).val + 256 * (f.get ⟨j + 1, h1⟩).val +
      65536 * (f.get ⟨j + 2, h2⟩).val + 16777216 * (f.get ⟨j + 3, h3⟩).val =
      (f.get ⟨j, h0⟩).val + 256 * ((f.get ⟨j + 1, h1⟩).val +
        256 * (f.get ⟨j + 2, h2⟩).val + 65536 * (f.get ⟨j + 3, h3⟩).val) := by
    ring
  rw [hd, Nat.add_mul_div_left _ _ (by norm_num : (0 : Nat) < 256),
    Nat.div_eq_of_lt (f.get ⟨j, h0⟩).isLt]
  ring

/-- The scan loop finds the first marker window: if the windows from `j` up
to (excluding) `m` are not the row marker and the window at `m` is, the
scan started just past window `j` stops just past window `m`. -/
theorem scanAux_found (f : XFile) :
    ∀ (n j m : Nat), j + 4 ≤ f.length → j ≤ m → m + 4 ≤ f.length → m - j = n →
    windowVal f m = row_marker_v11 →
    (∀ q, j ≤ q → q < m → windowVal f q ≠ row_marker_v11) →
    scanMarkerAux f (windowVal f j) (j + 4) (f.length - (j + 4)) = some (m + 4) := by
  intro n
  induction n with
  | zero =>
    intro j m _ hjm _ hn hm _
    have : m = j := by omega
    subst this
    cases hfuel : f.length - (m + 4) <;> simp [scanMarkerAux, hm]
  | succ n ih =>
    intro j m hj4 hjm hm4 hn hm hfirst
    have hjlt : j < m := by omega
    have hmag : windowVal f j ≠ row_marker_v11 := hfirst j le_rfl hjlt
    have hlt : j + 4 < f.length := by omega
    have hfl : f.length - (j + 4) = (f.length - (j + 1 + 4)) + 1 := by omega
    rw [hfl]
    simp only [scanMarkerAux]
    rw [if_neg hmag, dif_pos hlt, windowVal_step f j hlt]
    exact ih (j + 1) m (by omega) (by omega) hm4 (by omega) hm
      (fun q hq1 hq2 => hfirst q (by omega) hq2)

/-- The scan loop reaches end of file when no window from `j` on is the
row marker. -/
theorem scanAux_notfound (f : XFile) :
    ∀ (n j : Nat), j + 4 ≤ f.length → f.length - (j + 4) = n →
    (∀ q, j ≤ q → q + 4 ≤ f.length → windowVal f q ≠ row_marker_v11) →
    scanMarkerAux f (windowVal f j) (j + 4) (f.length - (j + 4)) = none := by
  intro n
  induction n with
  | zero =>
    intro j hj4 hn hfirst
    rw [hn]
    simp [scanMarkerAux, hfirst j le_rfl hj4]
  | succ n ih =>
    intro j hj4 hn hfirst
    have hlt : j + 4 < f.length := by omega
    have hfl : f.length - (j + 4) = (f.length - (j + 1 + 4)) + 1 := by omega
    rw [hfl]
    simp only [scanMarkerAux]
    rw [if_neg (hfirst j le_rfl hj4), dif_pos hlt, windowVal_step f j hlt]
    exact ih (j + 1) (by omega) (by omega) (fun q hq1 hq2 => hfirst q (by omega) hq2)

/-- Bounds on a successful scan. -/
theorem scanAux_bounds (f : XFile) :
    ∀ (fuel pos magic p : Nat), scanMarkerAux f magic pos fuel = some p →
      pos ≤ p ∧ p ≤ pos + fuel := by
  intro fuel
  induction fuel with
  | zero =>
    intro pos magic p h
    by_cases hm : magic = row_marker_v11 <;> simp [scanMarkerAux, hm] at h
    omega
  | succ fl ih =>
    intro pos magic p h
    by_cases hm : magic = row_marker_v11
    · simp [scanMarkerAux, hm] at h
      omega
    · simp only [scanMarkerAux] at h
      rw [if_neg hm] at h
      by_cases hp : pos < f.length
      · rw [dif_pos hp] at h
        have := ih _ _ _ h
        omega
      · rw [dif_neg hp] at h
        exact absurd h (by simp)

/-- Bounds on a successful `scanMarker`. -/
theorem scanMarker_bounds (f : XFile) (pos magic p : Nat) (hpos : pos ≤ f.length)
    (h : scanMarker f pos magic = some p) : pos ≤ p ∧ p ≤ f.length := by
  have := scanAux_bounds f _ _ _ _ h
  omega

/-- A scan whose register already holds the row marker stops at once. -/
theorem scanMarker_immediate (f : XFile) (pos : Nat) :
    scanMarker f pos row_marker_v11 = some pos := by
  unfold scanMarker
  cases f.length - pos <;> simp [scanMarkerAux]

/-- A read that lies fully inside the file returns the addressed bytes. -/
theorem freadN_at (f : XFile) (pre mid rest : List Byte) (n : Nat)
    (hf : f = pre ++ mid ++ rest) (hn : mid.length = n) :
    freadN f pre.length n = (some mid, pre.length + n) := by
  subst hf
  unfold freadN
  rw [if_pos (by simp only [List.length_append, hn]; omega)]
  have hd : (pre ++ mid ++ rest).drop pre.length = mid ++ rest := by
    rw [List.append_assoc]
    exact List.drop_left pre _
  rw [hd, List.take_left' hn]

/-- A read that overruns the file fails and consumes the tail. -/
theorem freadN_short (f : XFile) (pos n : Nat) (h : f.length < pos + n) :
    freadN f pos n = (none, f.length) := by
  unfold freadN
  rw [if_neg (by omega)]

/-- Decoding a fully present framed record returns its header and body --
regardless of the CRC fields, whose checks are compiled out. -/
theorem row_reader_at (f : XFile) (pre hdr body rest : List Byte)
    (hf : f = pre ++ hdr ++ body ++ rest) (hhdr : hdr.length = 28)
    (hlen : leNat ((hdr.drop 20).take 4) = body.length) :
    row_reader_v11 f pre.length =
      (.rowOk (hdr ++ body) (body.length + 28), pre.length + 28 + body.length) := by
  have hfr1 : freadN f pre.length 28 = (some hdr, pre.length + 28) := by
    refine freadN_at f pre hdr (body ++ rest) 28 ?_ hhdr
    rw [hf]
    simp [List.append_assoc]
  have hfr2 : freadN f (pre.length + 28) body.length =
      (some body, pre.length + 28 + body.length) := by
    have := freadN_at f (pre ++ hdr) body rest body.length (by rw [hf]) rfl
    simpa [hhdr, List.length_append] using this
  simp only [row_reader_v11, hfr1, hlen, hfr2]

/-- A short `row_reader_v11` read ends with the stream at end of file. -/
theorem row_reader_eof_pos (f : XFile) (pos p2 : Nat)
    (h : row_reader_v11 f pos = (.rowEof, p2)) : p2 = f.length := by
  unfold row_reader_v11 at h
  by_cases h1 : pos + 28 ≤ f.length
  · simp only [freadN, if_pos h1] at h
    by_cases h2 : pos + 28 + leNat ((((f.drop pos).take 28).drop 20).take 4) ≤
        f.length
    · simp only [if_pos h2] at h
      exact absurd h (by simp)
    · simp only [if_neg h2] at h
      exact (Prod.ext_iff.1 h).2.symm
  · simp only [freadN, if_neg h1] at h
    exact (Prod.ext_iff.1 h).2.symm

/-- A successful `row_reader_v11` call moves the stream forward and stays
inside the file. -/
theorem row_reader_ok_bounds (f : XFile) (pos p2 : Nat) (bytes : List Byte)
    (n : Nat) (h : row_reader_v11 f pos = (.rowOk bytes n, p2)) :
    pos ≤ p2 ∧ p2 ≤ f.length := by
  unfold row_reader_v11 at h
  by_cases h1 : pos + 28 ≤ f.length
  · simp only [freadN, if_pos h1] at h
    by_cases h2 : pos + 28 + leNat ((((f.drop pos).take 28).drop 20).take 4) ≤
        f.length
    · simp only [if_pos h2] at h
      have := (Prod.ext_iff.1 h).2
      omega
    · simp only [if_neg h2] at h
      exact absurd h (by simp)
  · simp only [freadN, if_neg h1] at h
    exact absurd h (by simp)

/-- C4 (amended) -- after a row marker is found, the only decode failure is
a body read that falls short of `len` bytes; in that case `good_offset` is
not advanced and the cursor treats the read as end-of-data (returns no row
with the eof disposition, leaving `eof_read` and the cursor untouched so a
later cursor can retry from `good_offset`), rather than resynchronizing
from the byte after the marker; a CRC mismatch never causes a decode
failure because the verification is compiled out (second conjunct: any
fully present record is decoded regardless of its CRC fields). -/
theorem cursor_short_body :
    (∀ (f : XFile) (pre hdr rest : List Byte) (c : XlogCursor),
      f = pre ++ u32le row_marker_v11 ++ hdr ++ rest →
      hdr.length = 28 →
      f.length < pre.length + 32 + leNat ((hdr.drop 20).take 4) →
      c.good_offset = pre.length →
      (xlog_cursor_v11_next f { cur := c, pos := pre.length }).row = none ∧
      (xlog_cursor_v11_next f { cur := c, pos := pre.length }).st.cur.good_offset
        = c.good_offset ∧
      (xlog_cursor_v11_next f { cur := c, pos := pre.length }).st.cur.eof_read
        = c.eof_read ∧
      (xlog_cursor_v11_next f { cur := c, pos := pre.length }).st.cur.row_count
        = c.row_count) ∧
    (∀ (f : XFile) (pos : Nat),
      pos + 28 ≤ f.length →
      pos + 28 + leNat ((((f.drop pos).take 28).drop 20).take 4) ≤ f.length →
      ∃ bytes p2, row_reader_v11 f pos =
        (.rowOk bytes (leNat ((((f.drop pos).take 28).drop 20).take 4) + 28), p2)) := by
  constructor
  · intro f pre hdr rest c hf hhdr hshort hg
    have hlen4 : (u32le row_marker_v11).length = 4 := by simp [u32le]
    have hflen : f.length = pre.length + 32 + rest.length := by
      rw [hf]
      simp only [List.length_append, hlen4, hhdr]
    have hms : freadN f pre.length 4 =
        (some (u32le row_marker_v11), pre.length + 4) :=
      freadN_at f pre (u32le row_marker_v11) (hdr ++ rest) 4
        (by rw [hf]; simp [List.append_assoc]) hlen4
    have hmarker : leNat (u32le row_marker_v11) = row_marker_v11 := by decide
    have hscan : scanMarker f (pre.length + 4) (leNat (u32le row_marker_v11)) =
        some (pre.length + 4) := by
      rw [hmarker]
      exact scanMarker_immediate f _
    have hrr1 : freadN f (pre.length + 4) 28 = (some hdr, pre.length + 4 + 28) := by
      have := freadN_at f (pre ++ u32le row_marker_v11) hdr rest 28
        (by rw [hf]) hhdr
      simpa [List.length_append, hlen4] using this
    have hrr2 : freadN f (pre.length + 4 + 28) (leNat ((hdr.drop 20).take 4)) =
        (none, f.length) := freadN_short f _ _ (by omega)
    have hrr : row_reader_v11 f (pre.length + 4) = (.rowEof, f.length) := by
      simp only [row_reader_v11, hrr1, hrr2]
    have hec : xlogEofCheck f c f.length = (c, f.length, false) := by
      unfold xlogEofCheck
      rw [if_neg (by omega)]
    simp [xlog_cursor_v11_next, hms, hscan, hrr, hec, hg, Nat.add_sub_cancel]
  · intro f pos h28 hbody
    have hfr1 : freadN f pos 28 = (some ((f.drop pos).take 28), pos + 28) := by
      unfold freadN
      rw [if_pos h28]
    have hfr2 : freadN f (pos + 28)
        (leNat ((((f.drop pos).take 28).drop 20).take 4)) =
        (some ((f.drop (pos + 28)).take
          (leNat ((((f.drop pos).take 28).drop 20).take 4))), pos + 28 +
          leNat ((((f.drop pos).take 28).drop 20).take 4)) := by
      unfold freadN
      rw [if_pos hbody]
    refine ⟨(f.drop pos).take 28 ++ (f.drop (pos + 28)).take
      (leNat ((((f.drop pos).take 28).drop 20).take 4)),
      pos + 28 + leNat ((((f.drop pos).take 28).drop 20).take 4), ?_⟩
    simp only [row_reader_v11, hfr1, hfr2]

/-- The 28-byte header of the truncated record of `fShortBody` (its `len`
field says 1000). -/
def hdrOverrun : List Byte :=
  u32le 0 ++ List.replicate 16 (0 : Byte) ++ u32le 1000 ++ u32le 0

/-- Witness for the amended C4 on `fShortBody` and `fBad`. -/
theorem cursor_short_body_witness :
    (xlog_cursor_v11_next fShortBody (cursorAt 0 0)).row = none ∧
    (xlog_cursor_v11_next fShortBody (cursorAt 0 0)).st.cur.good_offset = 0 ∧
    (∃ bytes p2, row_reader_v11 fBad 0 =
      (.rowOk bytes (leNat ((((fBad.drop 0).take 28).drop 20).take 4) + 28), p2)) := by
  have h := cursor_short_body.1 fShortBody [] hdrOverrun ([(7 : Byte)] ++ recA)
    (cursorAt 0 0).cur (by decide) (by decide) (by decide) rfl
  exact ⟨h.1, h.2.1, cursor_short_body.2 fBad 0 (by decide) (by decide)⟩

/-- Dispositions of the `eof:` label reached with the stream at end of
file: the stream ends at `f.length`, and the cursor is either untouched or
seals the file (exactly when the last four bytes, sitting at
`good_offset`, are the EOF marker). -/
theorem eofCheck_spec (f : XFile) (c : XlogCursor) (hg : c.good_offset ≤ f.length) :
    (xlogEofCheck f c f.length).2.1 = f.length ∧
    ((xlogEofCheck f c f.length).1 = c ∨
      ((xlogEofCheck f c f.length).1.eof_read = true ∧
       (xlogEofCheck f c f.length).1.good_offset = c.good_offset + 4 ∧
       (xlogEofCheck f c f.length).1.row_count = c.row_count ∧
       f.length = c.good_offset + 4 ∧
       windowVal f c.good_offset = eof_marker_v11)) := by
  by_cases hd : f.length = c.good_offset + 4
  · have hfr : freadN f c.good_offset 4 =
        (some ((f.drop c.good_offset).take 4), c.good_offset + 4) := by
      unfold freadN
      rw [if_pos (by omega)]
    simp only [xlogEofCheck, if_pos hd, hfr]
    by_cases hm : leNat ((f.drop c.good_offset).take 4) = eof_marker_v11
    · simp [if_pos hm, hd, hm, windowVal]
    · by_cases hr : leNat ((f.drop c.good_offset).take 4) ≠ row_marker_v11
      · simp [if_neg hm, if_pos hr, hd]
      · simp [if_neg hm, if_neg hr, hd]
  · simp [xlogEofCheck, if_neg hd]

/-- Effect of the `eof:` label on `good_offset`: never moved backward, and
moved forward (by 4) only over a read EOF marker. -/
theorem eofCheck_good (f : XFile) (c : XlogCursor) (hg : c.good_offset ≤ f.length) :
    c.good_offset ≤ (xlogEofCheck f c f.length).1.good_offset ∧
    (xlogEofCheck f c f.length).1.good_offset ≤ (xlogEofCheck f c f.length).2.1 ∧
    (xlogEofCheck f c f.length).1.good_offset ≤ f.length ∧
    ((xlogEofCheck f c f.length).1.good_offset = c.good_offset ∨
     ((xlogEofCheck f c f.length).1.eof_read = true ∧
      (xlogEofCheck f c f.length).1.good_offset = c.good_offset + 4 ∧
      windowVal f c.good_offset = eof_marker_v11)) := by
  have hs := eofCheck_spec f c hg
  rcases hs.2 with h | h
  · rw [hs.1, h]
    exact ⟨le_rfl, hg, hg, Or.inl rfl⟩
  · rw [hs.1, h.2.1]
    exact ⟨by omega, by omega, by omega, Or.inr ⟨h.1, rfl, h.2.2.2.2⟩⟩

/-- One `next` call never moves `good_offset` backward; it preserves the
state invariant (`good_offset` at or before the stream position and inside
the file) and sets `good_offset` only to the end of a decoded record or
just past a read EOF marker. -/
theorem next_step_good (f : XFile) (st : CState)
    (h1 : st.cur.good_offset ≤ st.pos) (h2 : st.cur.good_offset ≤ f.length) :
    st.cur.good_offset ≤ (xlog_cursor_v11_next f st).st.cur.good_offset ∧
    (xlog_cursor_v11_next f st).st.cur.good_offset ≤
      (xlog_cursor_v11_next f st).st.pos ∧
    (xlog_cursor_v11_next f st).st.cur.good_offset ≤ f.length ∧
    ((xlog_cursor_v11_next f st).st.cur.good_offset = st.cur.good_offset ∨
     ((xlog_cursor_v11_next f st).row.isSome = true ∧
      (xlog_cursor_v11_next f st).st.cur.good_offset =
        (xlog_cursor_v11_next f st).st.pos) ∨
     ((xlog_cursor_v11_next f st).st.cur.eof_read = true ∧
      (xlog_cursor_v11_next f st).st.cur.good_offset = st.cur.good_offset + 4 ∧
      windowVal f st.cur.good_offset = eof_marker_v11)) := by
  by_cases h4 : st.pos + 4 ≤ f.length
  · have hms : freadN f st.pos 4 = (some ((f.drop st.pos).take 4), st.pos + 4) := by
      unfold freadN
      rw [if_pos h4]
    cases hscan : scanMarker f (st.pos + 4) (leNat ((f.drop st.pos).take 4)) with
    | none =>
      have he := eofCheck_good f st.cur h2
      simp only [xlog_cursor_v11_next, hms, hscan]
      rcases he.2.2.2 with h | h
      · exact ⟨by omega, he.2.1, he.2.2.1, Or.inl h⟩
      · exact ⟨by omega, he.2.1, he.2.2.1, Or.inr (Or.inr h)⟩
    | some pAfter =>
      have hb := scanMarker_bounds f (st.pos + 4) _ pAfter (by omega) hscan
      cases hrr : row_reader_v11 f pAfter with
      | mk rr p2 =>
        cases rr with
        | rowEof =>
          have hp2 : p2 = f.length := row_reader_eof_pos f pAfter p2 hrr
          subst hp2
          have he := eofCheck_good f st.cur h2
          simp only [xlog_cursor_v11_next, hms, hscan, hrr]
          rcases he.2.2.2 with h | h
          · exact ⟨by omega, he.2.1, he.2.2.1, Or.inl h⟩
          · exact ⟨by omega, he.2.1, he.2.2.1, Or.inr (Or.inr h)⟩
        | rowOk bytes n =>
          have hbnd := row_reader_ok_bounds f pAfter p2 bytes n hrr
          simp only [xlog_cursor_v11_next, hms, hscan, hrr]
          exact ⟨by omega, le_rfl, by omega, Or.inr (Or.inl (by simp))⟩
  · have hms : freadN f st.pos 4 = (none, f.length) :=
      freadN_short f st.pos 4 (by omega)
    have he := eofCheck_good f st.cur h2
    simp only [xlog_cursor_v11_next, hms]
    rcases he.2.2.2 with h | h
    · exact ⟨by omega, he.2.1, he.2.2.1, Or.inl h⟩
    · exact ⟨by omega, he.2.1, he.2.2.1, Or.inr (Or.inr h)⟩

/-- Unfolding an iterated `next` from the back. -/
theorem nextIter_succ (f : XFile) : ∀ (k : Nat) (st : CState),
    nextIter f st (k + 1) = (xlog_cursor_v11_next f (nextIter f st k)).st := by
  intro k
  induction k with
  | zero => intro st; rfl
  | succ k ih => intro st; exact ih (xlog_cursor_v11_next f st).st

/-- The invariant holds along every iterated-`next` trajectory from an
`open` state. -/
theorem nextIter_inv (f : XFile) (pos : Nat) (hpos : pos ≤ f.length) :
    ∀ k, (nextIter f (xlog_cursor_v11_open pos) k).cur.good_offset ≤
        (nextIter f (xlog_cursor_v11_open pos) k).pos ∧
      (nextIter f (xlog_cursor_v11_open pos) k).cur.good_offset ≤ f.length := by
  intro k
  induction k with
  | zero => exact ⟨le_rfl, hpos⟩
  | succ k ih =>
    have hs := next_step_good f (nextIter f (xlog_cursor_v11_open pos) k) ih.1 ih.2
    rw [nextIter_succ f k]
    exact ⟨hs.2.1, hs.2.2.1⟩

/-- C10 -- across every sequence of `next()` calls on an open cursor,
`good_offset` is monotonically non-decreasing: it starts at the stream
position at open time, a single call either leaves it alone, sets it to
the stream position just past a fully decoded record, or moves it 4 bytes
past a read EOF marker; along iterated calls from `open` it never moves
backward, and `close` seeks the stream back to it without changing it. -/
theorem cursor_good_offset_monotone :
    (∀ pos : Nat, (xlog_cursor_v11_open pos).cur.good_offset = pos ∧
      (xlog_cursor_v11_open pos).pos = pos) ∧
    (∀ (f : XFile) (st : CState),
      st.cur.good_offset ≤ st.pos → st.cur.good_offset ≤ f.length →
      st.cur.good_offset ≤ (xlog_cursor_v11_next f st).st.cur.good_offset ∧
      ((xlog_cursor_v11_next f st).st.cur.good_offset = st.cur.good_offset ∨
       ((xlog_cursor_v11_next f st).row.isSome = true ∧
        (xlog_cursor_v11_next f st).st.cur.good_offset =
          (xlog_cursor_v11_next f st).st.pos) ∨
       ((xlog_cursor_v11_next f st).st.cur.eof_read = true ∧
        (xlog_cursor_v11_next f st).st.cur.good_offset = st.cur.good_offset + 4 ∧
        windowVal f st.cur.good_offset = eof_marker_v11))) ∧
    (∀ (f : XFile) (pos k : Nat), pos ≤ f.length →
      (nextIter f (xlog_cursor_v11_open pos) k).cur.good_offset ≤
        (nextIter f (xlog_cursor_v11_open pos) (k + 1)).cur.good_offset) ∧
    (∀ st : CState, (xlog_cursor_v11_close st).cur.good_offset =
      st.cur.good_offset ∧ (xlog_cursor_v11_close st).pos = st.cur.good_offset) := by
  refine ⟨fun pos => ⟨rfl, rfl⟩, ?_, ?_, fun st => ⟨rfl, rfl⟩⟩
  · intro f st hp hl
    have hs := next_step_good f st hp hl
    exact ⟨hs.1, hs.2.2.2⟩
  · intro f pos k hpos
    have hinv := nextIter_inv f pos hpos k
    have hs := next_step_good f (nextIter f (xlog_cursor_v11_open pos) k)
      hinv.1 hinv.2
    rw [nextIter_succ f k]
    exact hs.1

/-- Witness for C10 on the concrete sealed witness file: open at 0, one
step (decodes the record), and close. -/
theorem cursor_good_offset_monotone_witness :
    (xlog_cursor_v11_open 0).cur.good_offset = 0 ∧
    (nextIter recA (xlog_cursor_v11_open 0) 0).cur.good_offset ≤
      (nextIter recA (xlog_cursor_v11_open 0) 1).cur.good_offset ∧
    (xlog_cursor_v11_close (xlog_cursor_v11_open 5)).pos = 5 := by
  exact ⟨(cursor_good_offset_monotone.1 0).1,
    cursor_good_offset_monotone.2.2.1 recA 0 0 (by decide),
    (cursor_good_offset_monotone.2.2.2 (xlog_cursor_v11_open 5)).2⟩

/-- The EOF dispositions of a `next` call on a file that ends exactly 4
bytes past `good_offset`: no row is returned; an EOF marker there seals
the cursor, a row marker is silent, and anything else raises the
eof-marker-corrupt error. -/
theorem next_at_tail (f : XFile) (c : XlogCursor)
    (hlen : f.length = c.good_offset + 4) :
    (xlog_cursor_v11_next f { cur := c, pos := c.good_offset }).row = none ∧
    (windowVal f c.good_offset = eof_marker_v11 →
      (xlog_cursor_v11_next f { cur := c, pos := c.good_offset }).st.cur.eof_read
          = true ∧
      (xlog_cursor_v11_next f { cur := c, pos := c.good_offset }).st.cur.good_offset
          = c.good_offset + 4 ∧
      (xlog_cursor_v11_next f { cur := c, pos := c.good_offset }).eofCorrupt
          = false) ∧
    (windowVal f c.good_offset = row_marker_v11 →
      (xlog_cursor_v11_next f { cur := c, pos := c.good_offset }).st.cur = c ∧
      (xlog_cursor_v11_next f { cur := c, pos := c.good_offset }).eofCorrupt
          = false) ∧
    (windowVal f c.good_offset ≠ eof_marker_v11 →
      windowVal f c.good_offset ≠ row_marker_v11 →
      (xlog_cursor_v11_next f { cur := c, pos := c.good_offset }).st.cur = c ∧
      (xlog_cursor_v11_next f { cur := c, pos := c.good_offset }).eofCorrupt
          = true) := by
  have h4 : c.good_offset + 4 ≤ f.length := by omega
  have hms : freadN f c.good_offset 4 =
      (some ((f.drop c.good_offset).take 4), c.good_offset + 4) := by
    unfold freadN
    rw [if_pos h4]
  have hwv : leNat ((f.drop c.good_offset).take 4) = windowVal f c.good_offset := rfl
  by_cases hwr : windowVal f c.good_offset = row_marker_v11
  · have hscan : scanMarker f (c.good_offset + 4)
        (leNat ((f.drop c.good_offset).take 4)) = some (c.good_offset + 4) := by
      rw [hwv, hwr]
      exact scanMarker_immediate f _
    have hrr : row_reader_v11 f (c.good_offset + 4) = (.rowEof, f.length) := by
      simp only [row_reader_v11, freadN_short f (c.good_offset + 4) 28 (by omega)]
    have hec : xlogEofCheck f c f.length = (c, c.good_offset + 4, false) := by
      simp only [xlogEofCheck, if_pos hlen, hms, hwv]
      rw [if_neg (by rw [hwr]; decide), if_neg (by rw [hwr]; simp)]
    refine ⟨?_, fun hwe => absurd hwr (by rw [hwe]; decide), fun _ => ?_,
      fun _ hwr2 => absurd hwr hwr2⟩ <;>
      simp [xlog_cursor_v11_next, hms, hscan, hrr, hec, Nat.add_sub_cancel]
  · have hscan : scanMarker f (c.good_offset + 4)
        (leNat ((f.drop c.good_offset).take 4)) = none := by
      unfold scanMarker
      rw [show f.length - (c.good_offset + 4) = 0 from by omega]
      simp [scanMarkerAux, hwv, hwr]
    by_cases hwe : windowVal f c.good_offset = eof_marker_v11
    · have hec : xlogEofCheck f c f.length =
          ({ c with good_offset := c.good_offset + 4, eof_read := true },
            c.good_offset + 4, false) := by
        simp only [xlogEofCheck, if_pos hlen, hms, hwv]
        rw [if_pos hwe]
      refine ⟨?_, fun _ => ?_, fun hr => absurd hr hwr, fun hne _ => absurd hwe hne⟩ <;>
        simp [xlog_cursor_v11_next, hms, hscan, hec]
    · have hec : xlogEofCheck f c f.length = (c, c.good_offset + 4, true) := by
        simp only [xlogEofCheck, if_pos hlen, hms, hwv]
        rw [if_neg hwe, if_pos hwr]
      refine ⟨?_, fun hwe2 => absurd hwe2 hwe, fun hr => absurd hr hwr,
        fun _ _ => ?_⟩ <;>
        simp [xlog_cursor_v11_next, hms, hscan, hec]

/-- The output of a `next` call that decoded a record of `bl` body bytes
ending at stream position `p`. -/
def rowOut (c : XlogCursor) (bytes : List Byte) (bl p : Nat) : NextOut :=
  { row := some bytes, rowlen := bl + 28,
    st := { cur := { c with good_offset := p, row_count := c.row_count + 1 },
            pos := p },
    skipped := none, eofCorrupt := false }

/-- A `next` call positioned exactly on an intact framed record decodes it:
the marker matches at once, no bytes are skipped, and `good_offset` and
the stream advance just past the body. -/
theorem next_at_record (f : XFile) (pre hdr body rest : List Byte)
    (c : XlogCursor)
    (hf : f = pre ++ u32le row_marker_v11 ++ hdr ++ body ++ rest)
    (hhdr : hdr.length = 28)
    (hlen : leNat ((hdr.drop 20).take 4) = body.length)
    (hg : c.good_offset = pre.length) :
    xlog_cursor_v11_next f { cur := c, pos := pre.length } =
      rowOut c (hdr ++ body) body.length (pre.length + 4 + 28 + body.length) := by
  have hlen4 : (u32le row_marker_v11).length = 4 := by simp [u32le]
  have hms : freadN f pre.length 4 =
      (some (u32le row_marker_v11), pre.length + 4) :=
    freadN_at f pre (u32le row_marker_v11) (hdr ++ body ++ rest) 4
      (by rw [hf]; simp [List.append_assoc]) hlen4
  have hmarker : leNat (u32le row_marker_v11) = row_marker_v11 := by decide
  have hscan : scanMarker f (pre.length + 4) (leNat (u32le row_marker_v11)) =
      some (pre.length + 4) := by
    rw [hmarker]
    exact scanMarker_immediate f _
  have hrr : row_reader_v11 f (pre.length + 4) =
      (.rowOk (hdr ++ body) (body.length + 28), pre.length + 4 + 28 + body.length) := by
    have := row_reader_at f (pre ++ u32le row_marker_v11) hdr body rest
      (by rw [hf]) hhdr hlen
    simpa [List.length_append, hlen4] using this
  simp [xlog_cursor_v11_next, rowOut, hms, hscan, hrr, hg, Nat.add_sub_cancel]

/-- A decoded v11 record for the writer-side encoding used in the
read-back statements: the stored CRCs, the raw `lsn`/`tm` bytes, and the
body. -/
structure RecV11 where
  hcrc : Nat
  lsn8 : List Byte
  tm8 : List Byte
  body : List Byte
  dcrc : Nat

/-- The 28-byte `header_v11` of a record. -/
def hdrV11 (r : RecV11) : List Byte :=
  u32le r.hcrc ++ r.lsn8 ++ r.tm8 ++ u32le r.body.length ++ u32le r.dcrc

/-- A framed record as the appender lays it out: marker, header, body. -/
def encRecord (r : RecV11) : List Byte :=
  u32le row_marker_v11 ++ hdrV11 r ++ r.body

/-- Well-formedness: raw field widths and a body below 2^32 bytes. -/
def RecWF (r : RecV11) : Prop :=
  r.lsn8.length = 8 ∧ r.tm8.length = 8 ∧ r.body.length < 4294967296

/-- A log file body: the records in order, then the EOF marker iff the
writer sealed the file. -/
def mkFile (rs : List RecV11) (sealed : Bool) : XFile :=
  (rs.map encRecord).flatten ++ (if sealed then u32le eof_marker_v11 else [])

/-- Header length of a well-formed record. -/
theorem hdrV11_len (r : RecV11) (h : RecWF r) : (hdrV11 r).length = 28 := by
  simp [hdrV11, u32le, h.1, h.2.1]

/-- The `len` field of a well-formed record stores its body length. -/
theorem hdrV11_lenfield (r : RecV11) (h : RecWF r) :
    leNat (((hdrV11 r).drop 20).take 4) = r.body.length := by
  have hd : (hdrV11 r).drop 20 = u32le r.body.length ++ u32le r.dcrc := by
    have hshape : hdrV11 r = (u32le r.hcrc ++ r.lsn8 ++ r.tm8) ++
        (u32le r.body.length ++ u32le r.dcrc) := by
      simp [hdrV11, List.append_assoc]
    rw [hshape]
    exact List.drop_left' (by simp [u32le, h.1, h.2.1])
  rw [hd, List.take_left' (by simp [u32le]), leNat_u32le]
  exact Nat.mod_eq_of_lt h.2.2

/-- The framed length of a record. -/
theorem encRecord_len (r : RecV11) (h : RecWF r) :
    (encRecord r).length = 4 + 28 + r.body.length := by
  simp [encRecord, u32le, hdrV11_len r h]
  omega

/-- Reading a well-formed file to its end: starting at the head of the
record region, the cursor decodes every record and then its `eof_read`
flag says exactly whether the writer sealed the file. -/
theorem readback_aux (sealed : Bool) :
    ∀ (rs : List RecV11) (pre : List Byte) (c : XlogCursor) (fuel : Nat),
      (∀ r ∈ rs, RecWF r) → rs.length + 1 ≤ fuel →
      c.good_offset = pre.length → c.eof_read = false →
      (readToEnd (pre ++ (rs.map encRecord).flatten ++
          (if sealed then u32le eof_marker_v11 else []))
        { cur := c, pos := pre.length } fuel).cur.eof_read = sealed := by
  intro rs
  induction rs with
  | nil =>
    intro pre c fuel hwf hfuel hg he
    obtain ⟨k, rfl⟩ : ∃ k, fuel = k + 1 := ⟨fuel - 1, by omega⟩
    cases sealed with
    | false =>
      have hf : pre ++ (List.map encRecord []).flatten ++
          (if false then u32le eof_marker_v11 else []) = pre := by simp
      rw [hf]
      have hms : freadN pre pre.length 4 = (none, pre.length) :=
        freadN_short pre pre.length 4 (by omega)
      have hec : xlogEofCheck pre c pre.length = (c, pre.length, false) := by
        unfold xlogEofCheck
        rw [if_neg (by omega)]
      simp [readToEnd, xlog_cursor_v11_next, hms, hec, he]
    | true =>
      have hf : pre ++ (List.map encRecord []).flatten ++
          (if true then u32le eof_marker_v11 else []) =
          pre ++ u32le eof_marker_v11 := by simp
      rw [hf]
      have hflen : (pre ++ u32le eof_marker_v11).length = pre.length + 4 := by
        simp [u32le]
      have hwv : windowVal (pre ++ u32le eof_marker_v11) c.good_offset =
          eof_marker_v11 := by
        rw [hg]
        unfold windowVal
        rw [List.drop_left pre _]
        decide
      have ht := next_at_tail (pre ++ u32le eof_marker_v11) c (by omega)
      have h2 := ht.2.1 hwv
      rw [← hg]
      simp only [readToEnd, ht.1, Option.isSome_none, Bool.false_eq_true, if_false]
      exact h2.1
  | cons r rs ih =>
    intro pre c fuel hwf hfuel hg he
    obtain ⟨k, rfl⟩ : ∃ k, fuel = k + 1 := ⟨fuel - 1, by omega⟩
    have hwfr : RecWF r := hwf r (by simp)
    have hfshape : pre ++ ((r :: rs).map encRecord).flatten ++
        (if sealed then u32le eof_marker_v11 else []) =
        pre ++ u32le row_marker_v11 ++ hdrV11 r ++ r.body ++
          ((rs.map encRecord).flatten ++
            (if sealed then u32le eof_marker_v11 else [])) := by
      simp [encRecord, List.append_assoc]
    have hnext := next_at_record
      (pre ++ ((r :: rs).map encRecord).flatten ++
        (if sealed then u32le eof_marker_v11 else []))
      pre (hdrV11 r) r.body
      ((rs.map encRecord).flatten ++ (if sealed then u32le eof_marker_v11 else []))
      c hfshape (hdrV11_len r hwfr) (hdrV11_lenfield r hwfr) hg
    simp only [readToEnd, hnext, rowOut, Option.isSome_some, if_true]
    have hlenL : pre.length + 4 + 28 + r.body.length =
        (pre ++ encRecord r).length := by
      simp [List.length_append, encRecord_len r hwfr]
      omega
    have hfre : pre ++ ((r :: rs).map encRecord).flatten ++
        (if sealed then u32le eof_marker_v11 else []) =
        (pre ++ encRecord r) ++ (rs.map encRecord).flatten ++
          (if sealed then u32le eof_marker_v11 else []) := by
      simp [List.append_assoc]
    rw [hlenL, hfre]
    exact ih (pre ++ encRecord r) _ k
      (fun r2 hr2 => hwf r2 (by simp [hr2])) (by simp at hfuel; omega) rfl he

/-- C5 -- when a read falls short with the stream exactly 4 bytes past
`good_offset`, the cursor re-reads the 4-byte magic at `good_offset`: an
EOF marker sets `eof_read` and advances `good_offset` past it; a row
marker is silent (file still being written); any other value raises the
eof-marker-corrupt error; in every disposition `next()` returns no row.
Consequently, after a full read-back of a well-formed file, `eof_read` is
true iff the writer sealed the file. -/
theorem cursor_eof_disposition :
    (∀ (f : XFile) (c : XlogCursor), f.length = c.good_offset + 4 →
      (xlog_cursor_v11_next f { cur := c, pos := c.good_offset }).row = none ∧
      (windowVal f c.good_offset = eof_marker_v11 →
        (xlog_cursor_v11_next f { cur := c, pos := c.good_offset }).st.cur.eof_read
            = true ∧
        (xlog_cursor_v11_next f
          { cur := c, pos := c.good_offset }).st.cur.good_offset
            = c.good_offset + 4 ∧
        (xlog_cursor_v11_next f { cur := c, pos := c.good_offset }).eofCorrupt
            = false) ∧
      (windowVal f c.good_offset = row_marker_v11 →
        (xlog_cursor_v11_next f { cur := c, pos := c.good_offset }).st.cur = c ∧
        (xlog_cursor_v11_next f { cur := c, pos := c.good_offset }).eofCorrupt
            = false) ∧
      (windowVal f c.good_offset ≠ eof_marker_v11 →
        windowVal f c.good_offset ≠ row_marker_v11 →
        (xlog_cursor_v11_next f { cur := c, pos := c.good_offset }).st.cur = c ∧
        (xlog_cursor_v11_next f { cur := c, pos := c.good_offset }).eofCorrupt
            = true)) ∧
    (∀ (rs : List RecV11) (sealed : Bool) (fuel : Nat),
      (∀ r ∈ rs, RecWF r) → rs.length + 1 ≤ fuel →
      (readToEnd (mkFile rs sealed) (xlog_cursor_v11_open 0) fuel).cur.eof_read
        = sealed) := by
  refine ⟨next_at_tail, ?_⟩
  intro rs sealed fuel hwf hfuel
  have h := readback_aux sealed rs [] (xlog_cursor_v11_open 0).cur fuel hwf
    hfuel rfl rfl
  simpa [mkFile] using h

/-- The single record used by the read-back witness. -/
def recW : RecV11 :=
  { hcrc := 0, lsn8 := List.replicate 8 (0 : Byte),
    tm8 := List.replicate 8 (0 : Byte), body := [(7 : Byte)], dcrc := 0 }

set_option maxRecDepth 8000 in
/-- Witness for C5: read back one-record files, sealed and unsealed, and
one concrete corrupt-eof-marker disposition. -/
theorem cursor_eof_disposition_witness :
    (readToEnd (mkFile [recW] true) (xlog_cursor_v11_open 0) 2).cur.eof_read
      = true ∧
    (readToEnd (mkFile [recW] false) (xlog_cursor_v11_open 0) 2).cur.eof_read
      = false ∧
    (xlog_cursor_v11_next (List.replicate 4 (1 : Byte)) (cursorAt 0 0)).eofCorrupt
      = true := by
  refine ⟨cursor_eof_disposition.2 [recW] true 2 ?_ (by simp),
    cursor_eof_disposition.2 [recW] false 2 ?_ (by simp), ?_⟩
  · intro r hr
    simp only [List.mem_singleton] at hr
    subst hr
    exact ⟨by decide, by decide, by decide⟩
  · intro r hr
    simp only [List.mem_singleton] at hr
    subst hr
    exact ⟨by decide, by decide, by decide⟩
  · have h := (cursor_eof_disposition.1 (List.replicate 4 (1 : Byte))
      (cursorAt 0 0).cur (by decide)).2.2.2 (by decide) (by decide)
    exact h.2

/-- C6 -- when the 4 bytes at the read position are not the row marker the
cursor slides a 4-byte window one byte at a time: over a corrupted run of
`d` bytes (none of whose windows form the marker) followed by an intact
record, `next()` warns of exactly `d` skipped bytes, yields the record,
and advances `good_offset` past it; and when no window in the whole file
forms the marker, no row is returned. -/
theorem cursor_resync_skip :
    (∀ (f : XFile) (pre junk hdr body rest : List Byte) (c : XlogCursor),
      f = pre ++ junk ++ u32le row_marker_v11 ++ hdr ++ body ++ rest →
      hdr.length = 28 →
      leNat ((hdr.drop 20).take 4) = body.length →
      c.good_offset = pre.length →
      0 < junk.length →
      (∀ q, pre.length ≤ q → q < pre.length + junk.length →
        windowVal f q ≠ row_marker_v11) →
      (xlog_cursor_v11_next f { cur := c, pos := pre.length }).row
          = some (hdr ++ body) ∧
      (xlog_cursor_v11_next f { cur := c, pos := pre.length }).skipped
          = some (junk.length : Int) ∧
      (xlog_cursor_v11_next f { cur := c, pos := pre.length }).st.cur.good_offset
          = pre.length + junk.length + 4 + 28 + body.length ∧
      (xlog_cursor_v11_next f { cur := c, pos := pre.length }).st.cur.row_count
          = c.row_count + 1) ∧
    (∀ (f : XFile) (st : CState),
      (∀ q, windowVal f q ≠ row_marker_v11) →
      (xlog_cursor_v11_next f st).row = none) := by
  constructor
  · intro f pre junk hdr body rest c hf hhdr hlen hg hd hnomark
    have h4 : (u32le row_marker_v11).length = 4 := by simp [u32le]
    have hflen : f.length =
        pre.length + junk.length + 4 + 28 + body.length + rest.length := by
      rw [hf]
      simp only [List.length_append, hhdr, h4]
    have hms : freadN f pre.length 4 =
        (some ((f.drop pre.length).take 4), pre.length + 4) := by
      unfold freadN
      rw [if_pos (by omega)]
    have hwm : windowVal f (pre.length + junk.length) = row_marker_v11 := by
      unfold windowVal
      have hsplit : f = (pre ++ junk) ++
          (u32le row_marker_v11 ++ (hdr ++ (body ++ rest))) := by
        rw [hf]
        simp [List.append_assoc]
      have hdrop : f.drop (pre.length + junk.length) =
          u32le row_marker_v11 ++ (hdr ++ (body ++ rest)) := by
        rw [hsplit, show pre.length + junk.length = (pre ++ junk).length from
          by simp]
        exact List.drop_left _ _
      rw [hdrop, List.take_left' h4]
      decide
    have hscan : scanMarker f (pre.length + 4)
        (leNat ((f.drop pre.length).take 4)) =
        some (pre.length + junk.length + 4) :=
      scanAux_found f junk.length pre.length (pre.length + junk.length)
        (by omega) (by omega) (by omega) (by omega) hwm hnomark
    have hrr : row_reader_v11 f (pre.length + junk.length + 4) =
        (.rowOk (hdr ++ body) (body.length + 28),
          pre.length + junk.length + 4 + 28 + body.length) := by
      have := row_reader_at f (pre ++ junk ++ u32le row_marker_v11) hdr body
        rest (by rw [hf]) hhdr hlen
      simpa [List.length_append, h4] using this
    have hsub : pre.length + junk.length + 4 - 4 = pre.length + junk.length := by
      omega
    have hne : c.good_offset ≠ pre.length + junk.length := by omega
    refine ⟨?_, ?_, ?_, ?_⟩
    · simp [xlog_cursor_v11_next, hms, hscan, hrr]
    · simp only [xlog_cursor_v11_next, hms, hscan, hrr, hsub]
      rw [if_pos hne]
      simp only [Option.some.injEq, hg]
      omega
    · simp [xlog_cursor_v11_next, hms, hscan, hrr]
    · simp [xlog_cursor_v11_next, hms, hscan, hrr]
  · intro f st hnone
    by_cases h4 : st.pos + 4 ≤ f.length
    · have hms : freadN f st.pos 4 =
          (some ((f.drop st.pos).take 4), st.pos + 4) := by
        unfold freadN
        rw [if_pos h4]
      have hscan : scanMarker f (st.pos + 4)
          (leNat ((f.drop st.pos).take 4)) = none :=
        scanAux_notfound f (f.length - (st.pos + 4)) st.pos h4 rfl
          (fun q _ _ => hnone q)
      simp [xlog_cursor_v11_next, hms, hscan]
    · have hms := freadN_short f st.pos 4 (by omega)
      simp [xlog_cursor_v11_next, hms]

/-- The file of the resync witness: 5 junk bytes, then the valid `recA`. -/
def fJunk : XFile := List.replicate 5 (1 : Byte) ++ recA

set_option maxRecDepth 8000 in
/-- Witness for C6: the cursor skips exactly the 5 corrupted bytes and
yields the following record; an all-zero (marker-free) file yields no
row. -/
theorem cursor_resync_skip_witness :
    (xlog_cursor_v11_next fJunk (cursorAt 0 0)).skipped = some (5 : Int) ∧
    (xlog_cursor_v11_next fJunk (cursorAt 0 0)).row
      = some ((u32le 0 ++ List.replicate 16 (0 : Byte) ++ u32le 1 ++ u32le 0)
          ++ [(7 : Byte)]) ∧
    (xlog_cursor_v11_next (List.replicate 6 (0 : Byte)) (cursorAt 0 0)).row
      = none := by
  have h := cursor_resync_skip.1 fJunk [] (List.replicate 5 (1 : Byte))
    (u32le 0 ++ List.replicate 16 (0 : Byte) ++ u32le 1 ++ u32le 0)
    [(7 : Byte)] [] (cursorAt 0 0).cur (by decide) (by decide) (by decide)
    (by decide) (by decide)
    (fun q h0 h5 => by
      simp only [List.length_nil, List.length_replicate, Nat.zero_add] at h5
      interval_cases q <;> decide)
  have hz : ∀ n : Nat, leNat (List.replicate n (0 : Byte)) = 0 := by
    intro n
    induction n with
    | zero => rfl
    | succ n ih => simp [leNat, ih]
  refine ⟨h.2.1, h.1, ?_⟩
  exact cursor_resync_skip.2 (List.replicate 6 (0 : Byte)) (cursorAt 0 0)
    (fun q => by
      rw [windowVal, List.drop_replicate, List.take_replicate, hz]
      decide)

/-! ## The v11 directory scanner (`xdir_v11_scan`).  Directory entries are
character lists; `opendir` failure is the `none` listing. -/

/-- `LLONG_MAX`. -/
def LLONG_MAX : Int := 9223372036854775807

/-- `LLONG_MIN`. -/
def LLONG_MIN : Int := -9223372036854775808

/-- C `isspace` (POSIX locale). -/
def isSpaceC (ch : Char) : Bool :=
  ch == ' ' || ch == '\t' || ch == '\n' || ch == '\x0b' || ch == '\x0c' ||
    ch == '\r'

/-- The maximal leading digit run. -/
def takeDigits : List Char → List Char × List Char
  | [] => ([], [])
  | ch :: cs =>
    if ch.isDigit then
      let p := takeDigits cs
      (ch :: p.1, p.2)
    else ([], ch :: cs)

/-- Decimal value of a digit run. -/
def digitsToNat (ds : List Char) : Nat :=
  ds.foldl (fun a ch => 10 * a + (ch.toNat - 48)) 0

/-- Clamp to the `long long` range, as `strtoll` does on overflow. -/
def clampLL (v : Int) : Int :=
  if v > LLONG_MAX then LLONG_MAX else if v < LLONG_MIN then LLONG_MIN else v

/-- `strtoll(nptr, &endptr, 10)`: skip spaces, optional sign, digits,
clamped; returns the value and the endptr index (the index just past the
digits, or 0 -- `nptr` itself -- when no digits were consumed). -/
def strtoll10 (s : List Char) : Int × Nat :=
  let ws := (s.takeWhile isSpaceC).length
  let rest1 := s.drop ws
  let sg : Int × Nat :=
    match rest1 with
    | '-' :: _ => (-1, 1)
    | '+' :: _ => (1, 1)
    | _ => (1, 0)
  let ds := (takeDigits (rest1.drop sg.2)).1
  if ds.isEmpty then (0, 0)
  else (clampLL (sg.1 * (digitsToNat ds : Int)), ws + sg.2 + ds.length)

/-- `strchr(name, '.')` as an index. -/
def strchrDot : List Char → Option Nat
  | [] => none
  | ch :: cs => if ch == '.' then some 0 else (strchrDot cs).map (· + 1)

/-- Disposition of one directory entry in the scan loop. -/
inductive EntryScan where
  | skip : EntryScan
  | warn : EntryScan
  | sig : Int → EntryScan
deriving DecidableEq

/-- The per-entry logic of `xdir_v11_scan`: find the first dot, compare
the rest with the directory extension, parse the signature with `strtoll`
and require the parse to end exactly at the dot and the value to avoid
the `LLONG` extremes; parse failures are warned and skipped. -/
def xdirClassify (ext name : List Char) : EntryScan :=
  match strchrDot name with
  | none => .skip
  | some di =>
    if name.drop di ≠ ext then .skip
    else
      let p := strtoll10 name
      if p.2 ≠ di ∨ p.1 = LLONG_MAX ∨ p.1 = LLONG_MIN then .warn
      else .sig p.1

/-- The signature an entry contributes, if any. -/
def xdirSigOf (ext name : List Char) : Option Int :=
  match xdirClassify ext name with
  | .sig v => some v
  | _ => none

/-- Whether an entry draws the "can't parse, skipping" warning. -/
def xdirWarns (ext name : List Char) : Bool :=
  match xdirClassify ext name with
  | .warn => true
  | _ => false

/-- `struct xdir_v11`: extension and the stored signature index. -/
structure XdirV11 where
  filename_ext : List Char
  sig : List Int
deriving DecidableEq

/-- `xdir_v11_scan`: iterate the directory listing (`none` when `opendir`
failed), collect the surviving signatures, `qsort` them ascending and
install them as the directory's stored index, replacing the previous
list.  Warned entries never fail the scan. -/
def xdir_v11_scan (listing : Option (List (List Char))) (dir : XdirV11) :
    Except Unit (XdirV11 × List (List Char)) :=
  match listing with
  | none => .error ()
  | some names =>
    let sigs := names.filterMap (xdirSigOf dir.filename_ext)
    let warns := names.filter (xdirWarns dir.filename_ext)
    .ok ({ dir with sig := sigs.insertionSort (· ≤ ·) }, warns)

/-- The claim-side description of a surviving entry: the name is a
dot-free prefix followed by the extension (which itself starts with the
only dot), and `strtoll` parses exactly that prefix to a non-extreme
signed 64-bit value `v`. -/
def SpecMatch (ext name : List Char) (v : Int) : Prop :=
  ∃ pre, name = pre ++ ext ∧ '.' ∉ pre ∧
    strtoll10 name = (v, pre.length) ∧ v ≠ LLONG_MAX ∧ v ≠ LLONG_MIN

/-- Decomposition at the first dot. -/
theorem strchrDot_decomp :
    ∀ (name : List Char) (di : Nat), strchrDot name = some di →
      ∃ pre rest, name = pre ++ '.' :: rest ∧ pre.length = di ∧ '.' ∉ pre := by
  intro name
  induction name with
  | nil => intro di h; simp [strchrDot] at h
  | cons a cs ih =>
    intro di h
    by_cases ha : a = '.'
    · subst ha
      simp [strchrDot] at h
      exact ⟨[], cs, by simp, by simp [← h], by simp⟩
    · have ha2 : (a == '.') = false := by simp [ha]
      simp only [strchrDot, ha2, Bool.false_eq_true, if_false,
        Option.map_eq_some'] at h
      obtain ⟨d2, hd2, hdi⟩ := h
      obtain ⟨pre, rest, h1, h2, h3⟩ := ih d2 hd2
      refine ⟨a :: pre, rest, by simp [h1], by simp [h2, hdi], ?_⟩
      simp [ha, h3]
      exact fun hc => absurd hc.symm ha

/-- The first dot of a dot-free prefix followed by a dot. -/
theorem strchrDot_append (pre rest : List Char) (h : '.' ∉ pre) :
    strchrDot (pre ++ '.' :: rest) = some pre.length := by
  induction pre with
  | nil => simp [strchrDot]
  | cons a pre ih =>
    have ha : (a == '.') = false := by
      simp only [beq_eq_false_iff_ne, ne_eq]
      intro he
      exact h (he ▸ List.mem_cons_self a pre)
    have ih2 : strchrDot (pre.append ('.' :: rest)) = some pre.length :=
      ih (fun hm => h (List.mem_cons_of_mem a hm))
    simp only [List.cons_append, strchrDot, ha, Bool.false_eq_true, if_false,
      ih2, Option.map_some', List.length_cons]

/-- The scan-loop entry logic accepts exactly the claim-described entries
(for an extension starting with its only dot). -/
theorem xdirClassify_iff (e name : List Char) (v : Int) (he : '.' ∉ e) :
    xdirClassify ('.' :: e) name = .sig v ↔ SpecMatch ('.' :: e) name v := by
  constructor
  · intro h
    unfold xdirClassify at h
    cases hfind : strchrDot name with
    | none =>
      simp only [hfind] at h
      exact absurd h (by simp)
    | some di =>
      simp only [hfind] at h
      by_cases hdrop : name.drop di ≠ '.' :: e
      · rw [if_pos hdrop] at h
        exact absurd h (by simp)
      · rw [if_neg hdrop] at h
        push_neg at hdrop
        by_cases hcond : (strtoll10 name).2 ≠ di ∨ (strtoll10 name).1 = LLONG_MAX ∨
            (strtoll10 name).1 = LLONG_MIN
        · rw [if_pos hcond] at h
          exact absurd h (by simp)
        · rw [if_neg hcond] at h
          push_neg at hcond
          have hv : (strtoll10 name).1 = v := by
            simpa only [EntryScan.sig.injEq] using h
          obtain ⟨pre, rest, hname, hlen, hpre⟩ := strchrDot_decomp name di hfind
          have hrest : rest = e := by
            have hdl : name.drop di = '.' :: rest := by
              rw [hname, ← hlen]
              exact List.drop_left pre _
            rw [hdl] at hdrop
            injection hdrop with h1 h2
          refine ⟨pre, by rw [hname, hrest], hpre, ?_,
            by rw [← hv]; exact hcond.2.1, by rw [← hv]; exact hcond.2.2⟩
          have hp : strtoll10 name =
              ((strtoll10 name).1, (strtoll10 name).2) := rfl
          rw [hp, hv, hcond.1, ← hlen]
  · rintro ⟨pre, hname, hpre, hstr, hmax, hmin⟩
    unfold xdirClassify
    have hfind : strchrDot name = some pre.length := by
      rw [hname]
      exact strchrDot_append pre e hpre
    have hdl : name.drop pre.length = '.' :: e := by
      rw [hname]
      exact List.drop_left pre _
    simp only [hfind]
    rw [if_neg (by rw [hdl]; exact fun hc => hc rfl)]
    simp only [hstr]
    rw [if_neg (by push_neg; exact ⟨rfl, hmax, hmin⟩)]

/-- C7 -- the directory scan succeeds whatever the entries are, installs
as the stored index exactly the signatures of the entries whose first-dot
suffix equals the directory extension and whose prefix `strtoll`-parses
exactly up to the dot avoiding the i64 extremes (equivalently, per the
claim: the entries with exactly one dot, matching extension and parseable
prefix), sorted ascending; unparseable matching names are warned and
skipped; and a rescan's result does not depend on the previously stored
list, which it replaces. -/
theorem xdir_scan_spec :
    (∀ (names : List (List Char)) (dir : XdirV11),
      ∃ d2 warns, xdir_v11_scan (some names) dir = .ok (d2, warns) ∧
        d2.sig.Sorted (· ≤ ·) ∧
        d2.sig.Perm (names.filterMap (xdirSigOf dir.filename_ext)) ∧
        warns = names.filter (xdirWarns dir.filename_ext) ∧
        d2.filename_ext = dir.filename_ext) ∧
    (∀ (names : List (List Char)) (ext : List Char) (s1 s2 : List Int)
        (d1 d2 : XdirV11) (w1 w2 : List (List Char)),
      xdir_v11_scan (some names) ⟨ext, s1⟩ = .ok (d1, w1) →
      xdir_v11_scan (some names) ⟨ext, s2⟩ = .ok (d2, w2) →
      d1.sig = d2.sig ∧ w1 = w2) ∧
    (∀ (e name : List Char) (v : Int), '.' ∉ e →
      (xdirClassify ('.' :: e) name = .sig v ↔ SpecMatch ('.' :: e) name v)) ∧
    (∀ (e name : List Char) (v : Int), '.' ∉ e →
      xdirClassify ('.' :: e) name = .sig v → name.count '.' = 1) := by
  refine ⟨?_, ?_, xdirClassify_iff, ?_⟩
  · intro names dir
    refine ⟨_, _, rfl, List.sorted_insertionSort _ _, List.perm_insertionSort _ _,
      rfl, rfl⟩
  · intro names ext s1 s2 d1 d2 w1 w2 h1 h2
    simp only [xdir_v11_scan, Except.ok.injEq, Prod.mk.injEq] at h1 h2
    obtain ⟨hd1, hw1⟩ := h1
    obtain ⟨hd2, hw2⟩ := h2
    rw [← hd1, ← hd2, ← hw1, ← hw2]
    exact ⟨rfl, rfl⟩
  · intro e name v he h
    obtain ⟨pre, hname, hpre, -, -, -⟩ := (xdirClassify_iff e name v he).mp h
    rw [hname]
    have hp0 : pre.count '.' = 0 := List.count_eq_zero.mpr hpre
    have he0 : e.count '.' = 0 := List.count_eq_zero.mpr he
    simp [List.count_append, List.count_cons, hp0, he0]

/-- Directory-scan witness entries: `5.x`, `1.x` and the unparseable
`a.x`, against extension `.x`. -/
def extX : List Char := ['.', 'x']

/-- The entry `5.x`. -/
def nameA : List Char := ['5', '.', 'x']

/-- The entry `1.x`. -/
def nameB : List Char := ['1', '.', 'x']

/-- The unparseable entry `a.x`. -/
def nameJ : List Char := ['a', '.', 'x']

/-- The witness directory. -/
def dirX : XdirV11 := { filename_ext := extX, sig := [] }

/-- Witness for C7 on a concrete directory listing. -/
theorem xdir_scan_spec_witness :
    (∃ d2 warns,
      xdir_v11_scan (some [nameA, nameB, nameJ]) dirX = .ok (d2, warns) ∧
      d2.sig.Sorted (· ≤ ·) ∧
      d2.sig.Perm ([nameA, nameB, nameJ].filterMap (xdirSigOf dirX.filename_ext)) ∧
      warns = [nameA, nameB, nameJ].filter (xdirWarns dirX.filename_ext) ∧
      d2.filename_ext = dirX.filename_ext) ∧
    SpecMatch ('.' :: ['x']) nameB 1 ∧
    nameB.count '.' = 1 ∧
    (⟨extX, [1, 5]⟩ : XdirV11).sig = (⟨extX, [1, 5]⟩ : XdirV11).sig := by
  refine ⟨xdir_scan_spec.1 [nameA, nameB, nameJ] dirX,
    (xdir_scan_spec.2.2.1 ['x'] nameB 1 (by decide)).mp (by decide),
    xdir_scan_spec.2.2.2 ['x'] nameB 1 (by decide) (by decide),
    (xdir_scan_spec.2.1 [nameA, nameB, nameJ] extX [9] [] ⟨extX, [1, 5]⟩
      ⟨extX, [1, 5]⟩ [nameJ] [nameJ] rfl rfl).1⟩

end Spec2Proof
